import Mathlib

/-!
# Verification of the micrograd scalar autodiff engine

Shallow embedding of `src/value.rs` and `src/nn.rs`.

Modelling choices:

* The Rust heap of `Rc<RefCell<ValueInner>>` cells is embedded as an arena:
  a `Graph` is a `List ValueInner`, and a `Value` handle (an `Rc` pointer)
  is the `Nat` index of its cell.  Cloning an `Rc` yields the same index;
  pointer identity is index equality.  Every constructor appends its fresh
  cell at the end, so the operand indices stored in a node are strictly
  smaller than the node's own index for every graph built through the API.
* `f64` is embedded as exact arithmetic: the engine uses only `+`, `-`,
  `*`, negation and the two transcendental operations `tanh` and `powf`,
  which are kept as abstract parameters (an `FOps` record), so the whole
  development is parametric over a commutative ring `F`.  Universal claims
  are proved for every `F` (in particular the full rational model `ℚ` of
  exactly representable f64 arithmetic), and the claims' concrete test
  vectors, which are small integers computed exactly in binary64, are
  evaluated at `F := ℤ`.
* Interior mutability (`borrow_mut` on a gradient) is explicit state
  passing on the arena.  A `RefCell` double-borrow panic is an explicit
  `panic` outcome: in `ValueInner::backpropagate`, the `Multiply` arm's
  statement `lhs.borrow_mut().gradient += rhs.borrow().value * self.gradient`
  holds a shared borrow of `rhs` and a mutable borrow of `lhs` alive in the
  same statement (temporaries drop at the end of the statement), so it
  panics exactly when `lhs` and `rhs` are the same cell.  Operand indices
  are strictly below the node for every graph the API can build, so no
  borrow conflict along the recursion path can arise and none is modelled.
* The recursion in `ValueInner::backpropagate` descends along operand
  edges, which strictly decrease the index; Lean's termination checker
  cannot see that through the mutable state, so the recursion carries fuel
  and a distinct `more` outcome marks exhaustion.  Fuel `i + 1` suffices
  for every graph whose operand indices are strictly decreasing, where the
  source recursion terminates.
-/

/-! ## Definitions: the embedded program -/

/-- The two `f64` operations used by the engine that are not ring
operations; kept abstract so nothing about them is assumed. -/
structure FOps (F : Type) where
  tanh : F → F
  powf : F → F → F

/-- Provenance tag of a node, `enum Operation` in `src/value.rs`; operand
cells are stored as arena indices. -/
inductive Operation (F : Type) where
  | constant : Operation F
  | add (lhs rhs : Nat) : Operation F
  | sub (lhs rhs : Nat) : Operation F
  | pow (it : Nat) (exponent : F) : Operation F
  | multiply (lhs rhs : Nat) : Operation F
  | tanh (it : Nat) : Operation F
deriving DecidableEq, Repr

/-- One heap cell, `struct ValueInner` in `src/value.rs`. -/
structure ValueInner (F : Type) where
  value : F
  label : String
  gradient : F
  operation : Operation F
deriving DecidableEq, Repr

variable {F : Type} [CommRing F]

instance : Inhabited (ValueInner F) := ⟨⟨0, "", 0, .constant⟩⟩

/-- The arena of all cells created so far. -/
abbrev Graph (F : Type) := List (ValueInner F)

/-- Dereference an index (out-of-range reads, which never occur for handles
the API hands out, give the default cell). -/
def getN (g : Graph F) (i : Nat) : ValueInner F := g.getD i default

/-- `node.borrow_mut().gradient += δ`. -/
def bumpGrad (g : Graph F) (i : Nat) (δ : F) : Graph F :=
  g.set i { getN g i with gradient := (getN g i).gradient + δ }

/-- The operand indices a node's operation references. -/
def Operation.operands : Operation F → List Nat
  | .constant => []
  | .add l r => [l, r]
  | .sub l r => [l, r]
  | .pow a _ => [a]
  | .multiply l r => [l, r]
  | .tanh a => [a]

/-- Outcome of a backpropagation call: normal completion, a `RefCell`
borrow panic, or fuel exhaustion (never reached on well-formed graphs). -/
inductive BpOut (F : Type) where
  | panic : BpOut F
  | more : BpOut F
  | done (g : Graph F) : BpOut F
deriving DecidableEq, Repr

/-- Sequencing of backpropagation steps. -/
def BpOut.bind : BpOut F → (Graph F → BpOut F) → BpOut F
  | .panic, _ => .panic
  | .more, _ => .more
  | .done g, f => f g

/-- `ValueInner::backpropagate` (src/value.rs lines 26-61): pushes this
node's gradient into its operands by the local derivative rule, then
immediately recurses into each operand.  The `Multiply` arm panics when
both operands are the same cell (simultaneous `borrow_mut`/`borrow` of one
`RefCell` in one statement).  Every `self.gradient` read goes through the
current graph, as the Rust borrow does. -/
def ValueInner.backpropagate (ops : FOps F) : Nat → Graph F → Nat → BpOut F
  | 0, _, _ => .more
  | fuel + 1, g, i =>
    match (getN g i).operation with
    | .constant => .done g
    | .add l r =>
      let g1 := bumpGrad g l (getN g i).gradient
      let g2 := bumpGrad g1 r (getN g1 i).gradient
      (ValueInner.backpropagate ops fuel g2 l).bind fun g3 =>
        ValueInner.backpropagate ops fuel g3 r
    | .sub l r =>
      let g1 := bumpGrad g l (getN g i).gradient
      let g2 := bumpGrad g1 r (-(getN g1 i).gradient)
      (ValueInner.backpropagate ops fuel g2 l).bind fun g3 =>
        ValueInner.backpropagate ops fuel g3 r
    | .multiply l r =>
      if l = r then .panic
      else
        let g1 := bumpGrad g l ((getN g r).value * (getN g i).gradient)
        let g2 := bumpGrad g1 r ((getN g1 l).value * (getN g1 i).gradient)
        (ValueInner.backpropagate ops fuel g2 l).bind fun g3 =>
          ValueInner.backpropagate ops fuel g3 r
    | .pow a e =>
      let val := (getN g a).value
      let g1 := bumpGrad g a ((e * ops.powf val (e - 1)) * (getN g i).gradient)
      ValueInner.backpropagate ops fuel g1 a
    | .tanh a =>
      let g1 := bumpGrad g a ((1 - ops.powf (getN g i).value 2) * (getN g i).gradient)
      ValueInner.backpropagate ops fuel g1 a

namespace Value

/-- `Value::new`: append a fresh constant cell, return its handle. -/
def new (g : Graph F) (value : F) (label : String) : Graph F × Nat :=
  (g ++ [{ value := value, label := label, gradient := 0, operation := .constant }], g.length)

/-- `Value::value` accessor. -/
def value (g : Graph F) (i : Nat) : F := (getN g i).value

/-- `Value::gradient` accessor. -/
def gradient (g : Graph F) (i : Nat) : F := (getN g i).gradient

/-- `Value::label` accessor. -/
def label (g : Graph F) (i : Nat) : String := (getN g i).label

/-- `Value::tanh`. -/
def tanh (ops : FOps F) (g : Graph F) (a : Nat) : Graph F × Nat :=
  (g ++ [{ value := ops.tanh (getN g a).value,
           label := "tanh(" ++ (getN g a).label ++ ")",
           gradient := 0, operation := .tanh a }], g.length)

/-- `Value::pow` (the label stands in for `format!` on the exponent; its
text is never the subject of a claim). -/
def pow (ops : FOps F) (g : Graph F) (a : Nat) (exponent : F) : Graph F × Nat :=
  (g ++ [{ value := ops.powf (getN g a).value exponent,
           label := (getN g a).label ++ "^e",
           gradient := 0, operation := .pow a exponent }], g.length)

/-- `impl Mul for Value`. -/
def mul (g : Graph F) (a b : Nat) : Graph F × Nat :=
  (g ++ [{ value := (getN g a).value * (getN g b).value,
           label := "(" ++ (getN g a).label ++ " * " ++ (getN g b).label ++ ")",
           gradient := 0, operation := .multiply a b }], g.length)

/-- `impl Add for Value`. -/
def add (g : Graph F) (a b : Nat) : Graph F × Nat :=
  (g ++ [{ value := (getN g a).value + (getN g b).value,
           label := "(" ++ (getN g a).label ++ " + " ++ (getN g b).label ++ ")",
           gradient := 0, operation := .add a b }], g.length)

/-- `impl Sub for Value`. -/
def sub (g : Graph F) (a b : Nat) : Graph F × Nat :=
  (g ++ [{ value := (getN g a).value - (getN g b).value,
           label := "(" ++ (getN g a).label ++ " - " ++ (getN g b).label ++ ")",
           gradient := 0, operation := .sub a b }], g.length)

/-- `impl Neg for Value`: `self * Value::new(-1.0, "-1")` — the constant
cell is created first (argument evaluation), then the product cell. -/
def neg (g : Graph F) (a : Nat) : Graph F × Nat :=
  let m := new g (-1) "-1"
  mul m.1 a m.2

/-- `Value::backpropagate` (src/value.rs lines 115-121): seed the root
gradient with 1 (overwrite), then run the recursive traversal.  Fuel
`i + 1` bounds the recursion depth on every API-built graph. -/
def backpropagate (ops : FOps F) (g : Graph F) (i : Nat) : BpOut F :=
  let g0 := g.set i { getN g i with gradient := 1 }
  ValueInner.backpropagate ops (i + 1) g0 i

/-- `Value::nudge`. -/
def nudge (g : Graph F) (i : Nat) (rate : F) : Graph F :=
  let grad := (getN g i).gradient
  g.set i { getN g i with value := (getN g i).value - rate * grad, gradient := 0 }

end Value

/-- Gradient of node `i` after a backpropagation outcome, when it completed. -/
def BpOut.gradAt : BpOut F → Nat → Option F
  | .done g, i => some (Value.gradient g i)
  | _, _ => none

/-- An arbitrary instantiation of the two abstract `f64` operations over
`ℤ`, used to state closed theorems about graphs whose backpropagation never
invokes them. -/
def intOps : FOps ℤ := ⟨fun x => x, fun x _ => x⟩

/-- Modelled from the spec: step 1 of §4.2 — a depth-first post-order
topological sort of the nodes reachable from a root via operand edges,
deduplicating visited nodes by identity (arena index).  The source has no
such pass; this definition follows the spec's words, for comparison. -/
def topoSort (g : Graph F) : Nat → Nat → List Nat → List Nat
  | 0, _, visited => visited
  | fuel + 1, i, visited =>
    if i ∈ visited then visited
    else ((getN g i).operation.operands.foldl (fun acc o => topoSort g fuel o acc) visited) ++ [i]

/-- Modelled from the spec: the local derivative push of §4.2 step 3 for a
single node — accumulate into each operand's gradient, no recursion. -/
def pushStep (ops : FOps F) (g : Graph F) (i : Nat) : Graph F :=
  let n := getN g i
  match n.operation with
  | .constant => g
  | .add l r => bumpGrad (bumpGrad g l n.gradient) r n.gradient
  | .sub l r => bumpGrad (bumpGrad g l n.gradient) r (-n.gradient)
  | .multiply l r =>
    bumpGrad (bumpGrad g l ((getN g r).value * n.gradient)) r ((getN g l).value * n.gradient)
  | .pow a e => bumpGrad g a ((e * ops.powf (getN g a).value (e - 1)) * n.gradient)
  | .tanh a => bumpGrad g a ((1 - ops.powf n.value 2) * n.gradient)

/-- Modelled from the spec: the full §4.2 traversal the spec mandates —
compute a topological order of the reachable nodes, seed the root gradient
with 1, then process nodes in reverse topological order (root first, leaves
last), pushing each node's accumulated gradient into its operands exactly
once. -/
def backpropagateTopo (ops : FOps F) (g : Graph F) (r : Nat) : Graph F :=
  let order := topoSort g (r + 1) r []
  let g0 := g.set r { getN g r with gradient := 1 }
  order.reverse.foldl (pushStep ops) g0

/-- Two graphs with the same cells except possibly for gradient contents:
the length and every cell's `value`, `label` and `operation` agree.  All
gradient writes of the engine preserve this relation. -/
def SameShape (g g' : Graph F) : Prop :=
  g'.length = g.length ∧ ∀ j, (getN g' j).value = (getN g j).value ∧
    (getN g' j).label = (getN g j).label ∧ (getN g' j).operation = (getN g j).operation

/-- Mapping over the completion graph of an outcome. -/
def BpOut.map (f : Graph F → Graph F) : BpOut F → BpOut F
  | .panic => .panic
  | .more => .more
  | .done g => .done (f g)

/-- Operand indices are strictly below their node everywhere: the
invariant every graph built through the constructors satisfies. -/
def Wf (g : Graph F) : Prop :=
  ∀ i, i < g.length → ∀ o ∈ (getN g i).operation.operands, o < i

/-- Reachability along operand edges (reflexive-transitive); it depends
only on the `operation` fields. -/
inductive Reaches (g : Graph F) : Nat → Nat → Prop
  | refl (i : Nat) : Reaches g i i
  | step {i j k : Nat} : j ∈ (getN g i).operation.operands → Reaches g j k → Reaches g i k

/-- The shared heart of the two C9 traversals: push `+1` into `a`,
traverse `a`, push `-1` into `b`, traverse `b` — on the bare graph `g`,
with the canonical fuel. -/
def c9Core (ops : FOps F) (g : Graph F) (a b : Nat) : BpOut F :=
  (ValueInner.backpropagate ops g.length (bumpGrad g a 1) a).bind fun w =>
    ValueInner.backpropagate ops g.length (bumpGrad w b (-1)) b

/-- C1's failing input: `a = constant(2)`, `z = constant(3)`,
`m = multiply(a, z)` (a shared non-leaf node), `c = add(m, m)`.
Indices: a = 0, z = 1, m = 2, c = 3. -/
def c1Graph : Graph ℤ :=
  let a := Value.new [] 2 "a"
  let z := Value.new a.1 3 "z"
  let m := Value.mul z.1 a.2 z.2
  (Value.add m.1 m.2 m.2).1

/-- C2's input: `x = constant(2, "x")` at index 0, `p = multiply(x, x)` at
index 1 — one node used as both operands. -/
def c2Graph : Graph ℤ :=
  let x := Value.new [] 2 "x"
  (Value.mul x.1 x.2 x.2).1

/-- C3's failing input: `x = constant(3, "x")` at index 0,
`p = multiply(x, x)` at index 1. -/
def c3Graph : Graph ℤ :=
  let x := Value.new [] 3 "x"
  (Value.mul x.1 x.2 x.2).1

/-- C4's graph: `a = constant(-2)` (0), `b = constant(3)` (1),
`d = multiply(a,b)` (2), `e = add(a,b)` (3), `f = multiply(d,e)` (4). -/
def c4Graph : Graph ℤ :=
  let a := Value.new [] (-2) "a"
  let b := Value.new a.1 3 "b"
  let d := Value.mul b.1 a.2 b.2
  let e := Value.add d.1 a.2 b.2
  (Value.mul e.1 d.2 e.2).1

/-- `enum Error` in `src/nn.rs`. -/
inductive Error where
  | DimensionMismatch (expected actual : Nat)
deriving DecidableEq, Repr

/-- `struct Neuron`: weight node indices plus a bias node index. -/
structure Neuron where
  weights : List Nat
  bias : Nat
deriving DecidableEq, Repr

/-- `struct Layer`. -/
structure Layer where
  inputs : Nat
  neurons : List Neuron
deriving DecidableEq, Repr

/-- `struct Mlp`. -/
structure Mlp where
  inputs : Nat
  layers : List Layer
deriving DecidableEq, Repr

/-- The weight-construction loop of `Neuron::new`: `k` fresh constant
nodes labelled `w_i` onward, each drawn from the stream. -/
def Neuron.newWeights (supply : Nat → F) : Nat → Nat → Graph F → Nat → List Nat × Graph F × Nat
  | 0, _, g, ctr => ([], g, ctr)
  | k + 1, i, g, ctr =>
    let w := Value.new g (supply ctr) ("w_" ++ toString i)
    let rest := Neuron.newWeights supply k (i + 1) w.1 (ctr + 1)
    (w.2 :: rest.1, rest.2.1, rest.2.2)

/-- `Neuron::new`: `inputs` weights, then a bias node labelled `b`. -/
def Neuron.new (g : Graph F) (inputs : Nat) (supply : Nat → F) (ctr : Nat) :
    Neuron × Graph F × Nat :=
  let ws := Neuron.newWeights supply inputs 0 g ctr
  let b := Value.new ws.2.1 (supply ws.2.2) "b"
  (⟨ws.1, b.2⟩, b.1, ws.2.2 + 1)

/-- `Neuron::call` (src/nn.rs lines 35-46): dimension check first, then
`fold` starting from the bias, adding `w * x` per pair, then `tanh`.  On
the error path it returns before constructing any node, so the graph comes
back unchanged. -/
def Neuron.call (ops : FOps F) (n : Neuron) (g : Graph F) (x : List Nat) :
    Graph F × Except Error Nat :=
  if x.length ≠ n.weights.length then
    (g, .error (.DimensionMismatch n.weights.length x.length))
  else
    let folded := (n.weights.zip x).foldl
      (fun (acc : Graph F × Nat) wx =>
        let m := Value.mul acc.1 wx.1 wx.2
        Value.add m.1 acc.2 m.2) (g, n.bias)
    let t := Value.tanh ops folded.1 folded.2
    (t.1, .ok t.2)

/-- The neuron-construction loop of `Layer::new`. -/
def Layer.newNeurons (supply : Nat → F) (inputs : Nat) : Nat → Graph F → Nat → List Neuron × Graph F × Nat
  | 0, g, ctr => ([], g, ctr)
  | k + 1, g, ctr =>
    let n := Neuron.new g inputs supply ctr
    let rest := Layer.newNeurons supply inputs k n.2.1 n.2.2
    (n.1 :: rest.1, rest.2.1, rest.2.2)

/-- `Layer::new`. -/
def Layer.new (g : Graph F) (inputs outputs : Nat) (supply : Nat → F) (ctr : Nat) :
    Layer × Graph F × Nat :=
  let ns := Layer.newNeurons supply inputs outputs g ctr
  (⟨inputs, ns.1⟩, ns.2.1, ns.2.2)

/-- The `collect::<Result<Vec<_>>>` over `neuron.call(x)`: short-circuits
at the first error, threading the shared heap. -/
def Layer.callNeurons (ops : FOps F) (x : List Nat) :
    List Neuron → Graph F → Graph F × Except Error (List Nat)
  | [], g => (g, .ok [])
  | n :: rest, g =>
    match Neuron.call ops n g x with
    | (g1, .error e) => (g1, .error e)
    | (g1, .ok v) =>
      match Layer.callNeurons ops x rest g1 with
      | (g2, .error e) => (g2, .error e)
      | (g2, .ok vs) => (g2, .ok (v :: vs))

/-- `Layer::call` (src/nn.rs lines 64-73). -/
def Layer.call (ops : FOps F) (l : Layer) (g : Graph F) (x : List Nat) :
    Graph F × Except Error (List Nat) :=
  if x.length ≠ l.inputs then (g, .error (.DimensionMismatch l.inputs x.length))
  else Layer.callNeurons ops x l.neurons g

/-- The layer-construction of `Mlp::new`: one layer per adjacent pair of
`[inputs] ++ layer_sizes` (the `windows(2)` pass). -/
def Mlp.newLayers (supply : Nat → F) : List (Nat × Nat) → Graph F → Nat → List Layer × Graph F × Nat
  | [], g, ctr => ([], g, ctr)
  | (a, b) :: rest, g, ctr =>
    let l := Layer.new g a b supply ctr
    let ls := Mlp.newLayers supply rest l.2.1 l.2.2
    (l.1 :: ls.1, ls.2.1, ls.2.2)

/-- `Mlp::new`: `windows(2)` over `[inputs] ++ layer_sizes` is the zip of
`inputs :: layer_sizes` with `layer_sizes`. -/
def Mlp.new (g : Graph F) (inputs : Nat) (layerSizes : List Nat) (supply : Nat → F) (ctr : Nat) :
    Mlp × Graph F × Nat :=
  let ls := Mlp.newLayers supply ((inputs :: layerSizes).zip layerSizes) g ctr
  (⟨inputs, ls.1⟩, ls.2.1, ls.2.2)

/-- The `try_fold` over `self.layers[1..]` in `Mlp::predict`. -/
def Mlp.tryFold (ops : FOps F) : List Layer → Graph F → List Nat → Graph F × Except Error (List Nat)
  | [], g, acc => (g, .ok acc)
  | l :: rest, g, acc =>
    match Layer.call ops l g acc with
    | (g1, .error e) => (g1, .error e)
    | (g1, .ok v) => Mlp.tryFold ops rest g1 v

/-- `Mlp::predict` (src/nn.rs lines 92-102): dimension check, then
`self.layers[0].call(x)?`, then the `try_fold` over the remaining layers.
Indexing `self.layers[0]` on a zero-layer network panics (out-of-bounds),
modelled as `none`. -/
def Mlp.predict (ops : FOps F) (m : Mlp) (g : Graph F) (x : List Nat) :
    Option (Graph F × Except Error (List Nat)) :=
  if x.length ≠ m.inputs then some (g, .error (.DimensionMismatch m.inputs x.length))
  else
    match m.layers with
    | [] => none
    | l0 :: rest =>
      match Layer.call ops l0 g x with
      | (g1, .error e) => some (g1, .error e)
      | (g1, .ok v) => some (Mlp.tryFold ops rest g1 v)

/-- A layer as `Layer::new` builds it: every neuron has exactly `inputs`
weights. -/
def Layer.wf (l : Layer) : Prop := ∀ n ∈ l.neurons, n.weights.length = l.inputs

/-- Arity chaining of an `Mlp::new`-built network: the first layer
consumes `k` inputs and each layer feeds the next one neuron-count many
values. -/
def Mlp.chain : Nat → List Layer → Prop
  | _, [] => True
  | k, l :: rest => l.inputs = k ∧ Layer.wf l ∧ Mlp.chain l.neurons.length rest

/-- A network as `Mlp::new` with a nonempty size list builds it. -/
def Mlp.wf (m : Mlp) : Prop := m.layers ≠ [] ∧ Mlp.chain m.inputs m.layers

/-- Concrete two-node graph for the C5 witness. -/
def c5WitnessGraph : Graph ℤ := [⟨2, "w", 0, .constant⟩, ⟨3, "b", 0, .constant⟩]

/-- Concrete two-cell integer graph for the C8 witness. -/
def c8WitnessGraph : Graph ℤ := [⟨2, "x", 0, .constant⟩, ⟨4, "y", 0, .constant⟩]

/-- C9's counterexample graph: `v = constant(5)` at index 0 and
`add(v, v)` at index 1, all gradients fresh. -/
def c9CexGraph : Graph ℤ := [⟨5, "v", 0, .constant⟩, ⟨10, "(v + v)", 0, .add 0 0⟩]

/-- Two fresh constants for the C9 witness. -/
def c9WitnessG : Graph ℤ := [⟨5, "p", 0, .constant⟩, ⟨7, "q", 0, .constant⟩]

/-! ## Theorems -/

theorem getN_append {g : Graph F} (t : Graph F) {i : Nat} (h : i < g.length) :
    getN (g ++ t) i = getN g i :=
  List.getD_append _ _ _ _ h

theorem getN_append_self (g : Graph F) (x : ValueInner F) : getN (g ++ [x]) g.length = x := by
  rw [getN, List.getD_append_right _ _ _ _ (le_refl _), Nat.sub_self]
  rfl

theorem getN_set_self {g : Graph F} {i : Nat} (h : i < g.length) (x : ValueInner F) :
    getN (g.set i x) i = x := by
  rw [getN, List.getD_eq_getElem _ _ (by simpa using h)]
  exact List.getElem_set_self _

theorem getN_set_ne {g : Graph F} {i j : Nat} (h : i ≠ j) (x : ValueInner F) :
    getN (g.set i x) j = getN g j := by
  by_cases hj : j < g.length
  · rw [getN, List.getD_eq_getElem _ _ (by simpa using hj), getN, List.getD_eq_getElem _ _ hj]
    exact List.getElem_set_ne h _
  · rw [getN, List.getD_eq_default _ _ (by simpa using Nat.le_of_not_lt hj), getN,
      List.getD_eq_default _ _ (Nat.le_of_not_lt hj)]

theorem length_bumpGrad (g : Graph F) (i : Nat) (δ : F) :
    (bumpGrad g i δ).length = g.length :=
  List.length_set g i _

theorem getN_bumpGrad_ne {g : Graph F} {i j : Nat} (h : i ≠ j) (δ : F) :
    getN (bumpGrad g i δ) j = getN g j :=
  getN_set_ne h _

theorem getN_bumpGrad_self {g : Graph F} {i : Nat} (h : i < g.length) (δ : F) :
    getN (bumpGrad g i δ) i = { getN g i with gradient := (getN g i).gradient + δ } :=
  getN_set_self h _

theorem bumpGrad_of_length_le {g : Graph F} {i : Nat} (h : g.length ≤ i) (δ : F) :
    bumpGrad g i δ = g :=
  List.set_eq_of_length_le h

theorem sameShape_refl (g : Graph F) : SameShape g g := ⟨rfl, fun _ => ⟨rfl, rfl, rfl⟩⟩

theorem sameShape_trans {g1 g2 g3 : Graph F} (h12 : SameShape g1 g2) (h23 : SameShape g2 g3) :
    SameShape g1 g3 :=
  ⟨h23.1.trans h12.1, fun j =>
    ⟨((h23.2 j).1).trans (h12.2 j).1, ((h23.2 j).2.1).trans (h12.2 j).2.1,
     ((h23.2 j).2.2).trans (h12.2 j).2.2⟩⟩

/-- Setting a cell to a gradient-modified copy of itself preserves shape. -/
theorem sameShape_setGrad (g : Graph F) (i : Nat) (q : F) :
    SameShape g (g.set i { getN g i with gradient := q }) := by
  refine ⟨List.length_set g i _, fun j => ?_⟩
  rcases eq_or_ne i j with rfl | hne
  · by_cases hi : i < g.length
    · rw [getN_set_self hi]
      exact ⟨rfl, rfl, rfl⟩
    · rw [List.set_eq_of_length_le (Nat.le_of_not_lt hi)]
      exact ⟨rfl, rfl, rfl⟩
  · rw [getN_set_ne hne]
    exact ⟨rfl, rfl, rfl⟩

theorem sameShape_bumpGrad (g : Graph F) (i : Nat) (δ : F) :
    SameShape g (bumpGrad g i δ) :=
  sameShape_setGrad g i _

theorem BpOut.bind_eq_done {o : BpOut F} {f : Graph F → BpOut F} {g' : Graph F}
    (h : o.bind f = .done g') : ∃ gm, o = .done gm ∧ f gm = .done g' := by
  cases o with
  | panic => exact absurd h (by simp [BpOut.bind])
  | more => exact absurd h (by simp [BpOut.bind])
  | done g => exact ⟨g, rfl, h⟩

/-- The recursive traversal mutates only gradients: whenever it completes,
every cell's `value`, `label` and `operation` are unchanged, and the arena
length is unchanged. -/
theorem backpropagate_sameShape (ops : FOps F) :
    ∀ (fuel : Nat) (g : Graph F) (i : Nat) (g' : Graph F),
      ValueInner.backpropagate ops fuel g i = .done g' → SameShape g g' := by
  intro fuel
  induction fuel with
  | zero => intro g i g' h; exact absurd h (by simp [ValueInner.backpropagate])
  | succ fuel ih =>
    intro g i g' h
    rw [ValueInner.backpropagate] at h
    cases hop : (getN g i).operation with
    | constant =>
      rw [hop] at h
      cases h
      exact sameShape_refl _
    | add l r =>
      rw [hop] at h
      obtain ⟨gm, h1, h2⟩ := BpOut.bind_eq_done h
      exact sameShape_trans
        (sameShape_trans (sameShape_trans (sameShape_bumpGrad _ _ _) (sameShape_bumpGrad _ _ _))
          (ih _ _ _ h1)) (ih _ _ _ h2)
    | sub l r =>
      rw [hop] at h
      obtain ⟨gm, h1, h2⟩ := BpOut.bind_eq_done h
      exact sameShape_trans
        (sameShape_trans (sameShape_trans (sameShape_bumpGrad _ _ _) (sameShape_bumpGrad _ _ _))
          (ih _ _ _ h1)) (ih _ _ _ h2)
    | multiply l r =>
      rw [hop] at h
      dsimp only at h
      by_cases hlr : l = r
      · rw [if_pos hlr] at h
        exact absurd h (by simp)
      · rw [if_neg hlr] at h
        obtain ⟨gm, h1, h2⟩ := BpOut.bind_eq_done h
        exact sameShape_trans
          (sameShape_trans (sameShape_trans (sameShape_bumpGrad _ _ _) (sameShape_bumpGrad _ _ _))
            (ih _ _ _ h1)) (ih _ _ _ h2)
    | pow a e =>
      rw [hop] at h
      exact sameShape_trans (sameShape_bumpGrad _ _ _) (ih _ _ _ h)
    | tanh a =>
      rw [hop] at h
      exact sameShape_trans (sameShape_bumpGrad _ _ _) (ih _ _ _ h)

/-- The public `Value::backpropagate` (seed, then traverse) also only
mutates gradients when it completes. -/
theorem value_backpropagate_sameShape (ops : FOps F) (g : Graph F) (i : Nat) (g' : Graph F)
    (h : Value.backpropagate ops g i = .done g') : SameShape g g' :=
  sameShape_trans (sameShape_setGrad g i 1) (backpropagate_sameShape ops _ _ _ _ h)

theorem BpOut.map_eq_done {f : Graph F → Graph F} {o : BpOut F} {g' : Graph F}
    (h : o.map f = .done g') : ∃ w, o = .done w ∧ g' = f w := by
  cases o with
  | panic => exact absurd h (by simp [BpOut.map])
  | more => exact absurd h (by simp [BpOut.map])
  | done w => exact ⟨w, rfl, by cases h; rfl⟩

theorem BpOut.bind_congr {o : BpOut F} {k k' : Graph F → BpOut F}
    (h : ∀ w, o = .done w → k w = k' w) : o.bind k = o.bind k' := by
  cases o with
  | panic => rfl
  | more => rfl
  | done w => exact h w rfl

theorem BpOut.map_bind (f : Graph F → Graph F) (o : BpOut F) (k : Graph F → BpOut F) :
    (o.map f).bind k = o.bind (fun w => k (f w)) := by
  cases o <;> rfl

theorem BpOut.bind_map (f : Graph F → Graph F) (o : BpOut F) (k : Graph F → BpOut F) :
    o.bind (fun w => (k w).map f) = (o.bind k).map f := by
  cases o <;> rfl

/-- Shape-equal graphs have the same well-formedness. -/
theorem wf_of_sameShape {g g' : Graph F} (hs : SameShape g g') (hw : Wf g) : Wf g' := by
  intro i hi o ho
  rw [(hs.2 i).2.2] at ho
  exact hw i (by rwa [hs.1] at hi) o ho

/-- Appending one cell whose operands lie inside the old graph preserves
well-formedness. -/
theorem wf_append {g : Graph F} (hw : Wf g) (x : ValueInner F)
    (hx : ∀ o ∈ x.operation.operands, o < g.length) : Wf (g ++ [x]) := by
  intro i hi o ho
  rcases Nat.lt_or_ge i g.length with hlt | hge
  · rw [getN_append _ hlt] at ho
    exact hw i hlt o ho
  · have hi' : i = g.length := by
      have := List.length_append g [x] ▸ hi
      simp at this
      omega
    subst hi'
    rw [getN_append_self] at ho
    exact hx o ho

theorem reaches_of_sameShape {g g' : Graph F} (hs : SameShape g g') {i j : Nat}
    (h : Reaches g' i j) : Reaches g i j := by
  induction h with
  | refl i => exact .refl i
  | step hm _ ih => exact .step (by rwa [(hs.2 _).2.2] at hm) ih

theorem reaches_iff_of_sameShape {g g' : Graph F} (hs : SameShape g g') {i j : Nat} :
    Reaches g' i j ↔ Reaches g i j := by
  constructor
  · exact reaches_of_sameShape hs
  · intro h
    induction h with
    | refl i => exact .refl i
    | step hm _ ih => exact .step (by rwa [(hs.2 _).2.2]) ih

/-- Bumping twice preserves well-formedness. -/
theorem wf_bump2 {g : Graph F} (hw : Wf g) (l r : Nat) (d1 d2 : F) :
    Wf (bumpGrad (bumpGrad g l d1) r d2) :=
  wf_of_sameShape (sameShape_trans (sameShape_bumpGrad _ _ _) (sameShape_bumpGrad _ _ _)) hw

/-- Bumping once preserves well-formedness. -/
theorem wf_bump1 {g : Graph F} (hw : Wf g) (a : Nat) (d : F) : Wf (bumpGrad g a d) :=
  wf_of_sameShape (sameShape_bumpGrad _ _ _) hw

/-- A completed traversal changes no gradient at or above its root, on a
well-formed graph. -/
theorem backprop_grad_ge (ops : FOps F) :
    ∀ (fuel : Nat) (g : Graph F) (i : Nat) (g' : Graph F), Wf g →
      ValueInner.backpropagate ops fuel g i = .done g' →
      ∀ j, i ≤ j → (getN g' j).gradient = (getN g j).gradient := by
  intro fuel
  induction fuel with
  | zero => intro g i g' _ h; exact absurd h (by simp [ValueInner.backpropagate])
  | succ fuel ih =>
    intro g i g' hw h j hij
    by_cases hil : i < g.length
    case neg =>
      -- out-of-range node: the default cell is a constant, nothing happens
      rw [ValueInner.backpropagate] at h
      rw [show (getN g i).operation = .constant by
        rw [getN, List.getD_eq_default _ _ (Nat.le_of_not_lt hil)]; rfl] at h
      cases h
      rfl
    case pos =>
    have hops := hw i hil
    rw [ValueInner.backpropagate] at h
    cases hop : (getN g i).operation with
    | constant =>
      rw [hop] at h
      cases h
      rfl
    | add l r =>
      rw [hop] at h
      rw [hop] at hops
      have hl : l < i := hops l (by simp [Operation.operands])
      have hr : r < i := hops r (by simp [Operation.operands])
      obtain ⟨gm, h1, h2⟩ := BpOut.bind_eq_done h
      have e1 := ih _ _ _ (wf_bump2 hw l r _ _) h1 j (le_trans (Nat.le_of_lt hl) hij)
      have e2 := ih _ _ _
        (wf_of_sameShape (backpropagate_sameShape ops _ _ _ _ h1) (wf_bump2 hw l r _ _))
        h2 j (le_trans (Nat.le_of_lt hr) hij)
      rw [e2, e1, getN_bumpGrad_ne (show r ≠ j by omega),
        getN_bumpGrad_ne (show l ≠ j by omega)]
    | sub l r =>
      rw [hop] at h
      rw [hop] at hops
      have hl : l < i := hops l (by simp [Operation.operands])
      have hr : r < i := hops r (by simp [Operation.operands])
      obtain ⟨gm, h1, h2⟩ := BpOut.bind_eq_done h
      have e1 := ih _ _ _ (wf_bump2 hw l r _ _) h1 j (le_trans (Nat.le_of_lt hl) hij)
      have e2 := ih _ _ _
        (wf_of_sameShape (backpropagate_sameShape ops _ _ _ _ h1) (wf_bump2 hw l r _ _))
        h2 j (le_trans (Nat.le_of_lt hr) hij)
      rw [e2, e1, getN_bumpGrad_ne (show r ≠ j by omega),
        getN_bumpGrad_ne (show l ≠ j by omega)]
    | multiply l r =>
      rw [hop] at h
      rw [hop] at hops
      have hl : l < i := hops l (by simp [Operation.operands])
      have hr : r < i := hops r (by simp [Operation.operands])
      dsimp only at h
      by_cases hlr : l = r
      · rw [if_pos hlr] at h
        exact absurd h (by simp)
      · rw [if_neg hlr] at h
        obtain ⟨gm, h1, h2⟩ := BpOut.bind_eq_done h
        have e1 := ih _ _ _ (wf_bump2 hw l r _ _) h1 j (le_trans (Nat.le_of_lt hl) hij)
        have e2 := ih _ _ _
          (wf_of_sameShape (backpropagate_sameShape ops _ _ _ _ h1) (wf_bump2 hw l r _ _))
          h2 j (le_trans (Nat.le_of_lt hr) hij)
        rw [e2, e1, getN_bumpGrad_ne (show r ≠ j by omega),
          getN_bumpGrad_ne (show l ≠ j by omega)]
    | pow a e =>
      rw [hop] at h
      rw [hop] at hops
      have hla : a < i := hops a (by simp [Operation.operands])
      have e1 := ih _ _ _ (wf_bump1 hw a _) h j (le_trans (Nat.le_of_lt hla) hij)
      rw [e1, getN_bumpGrad_ne (show a ≠ j by omega)]
    | tanh a =>
      rw [hop] at h
      rw [hop] at hops
      have hla : a < i := hops a (by simp [Operation.operands])
      have e1 := ih _ _ _ (wf_bump1 hw a _) h j (le_trans (Nat.le_of_lt hla) hij)
      rw [e1, getN_bumpGrad_ne (show a ≠ j by omega)]

theorem getN_append_add (g t : Graph F) (k : Nat) : getN (g ++ t) (g.length + k) = getN t k := by
  rw [getN, List.getD_append_right _ _ _ _ (Nat.le_add_right _ _), Nat.add_sub_cancel_left, getN]

theorem set_append_tail (g t : Graph F) (k : Nat) (y : ValueInner F) :
    (g ++ t).set (g.length + k) y = g ++ t.set k y := by
  rw [List.set_append, if_neg (by omega), Nat.add_sub_cancel_left]

theorem bumpGrad_append {g : Graph F} (t : Graph F) {j : Nat} (hj : j < g.length) (δ : F) :
    bumpGrad (g ++ t) j δ = bumpGrad g j δ ++ t := by
  rw [bumpGrad, bumpGrad, getN_append t hj, List.set_append_left _ _ hj]

/-- Gradient bumps at distinct indices commute. -/
theorem bumpGrad_comm {g : Graph F} {i j : Nat} (h : i ≠ j) (x y : F) :
    bumpGrad (bumpGrad g i x) j y = bumpGrad (bumpGrad g j y) i x := by
  unfold bumpGrad
  rw [getN_set_ne h, getN_set_ne (Ne.symm h), List.set_comm _ _ _ h]

/-- Bumping never changes a `value` field. -/
theorem value_bumpGrad (g : Graph F) (b j : Nat) (c : F) :
    (getN (bumpGrad g b c) j).value = (getN g j).value :=
  ((sameShape_bumpGrad g b c).2 j).1

/-- Bumping elsewhere never changes a gradient. -/
theorem grad_bumpGrad_ne {g : Graph F} {b j : Nat} (h : b ≠ j) (c : F) :
    (getN (bumpGrad g b c) j).gradient = (getN g j).gradient := by
  rw [getN_bumpGrad_ne h]

/-- Extension: cells appended above the root are inert — the traversal of
a well-formed prefix neither reads nor writes them. -/
theorem backprop_append (ops : FOps F) :
    ∀ (fuel : Nat) (g t : Graph F) (i : Nat), Wf g → i < g.length →
      ValueInner.backpropagate ops fuel (g ++ t) i =
        (ValueInner.backpropagate ops fuel g i).map (· ++ t) := by
  intro fuel
  induction fuel with
  | zero => intro g t i _ _; rfl
  | succ fuel ih =>
    intro g t i hw hi
    have hops := hw i hi
    rw [ValueInner.backpropagate, ValueInner.backpropagate, getN_append t hi]
    cases hop : (getN g i).operation with
    | constant => rfl
    | add l r =>
      rw [hop] at hops
      have hl : l < i := hops l (by simp [Operation.operands])
      have hr : r < i := hops r (by simp [Operation.operands])
      dsimp only
      have e1 : bumpGrad (g ++ t) l (getN g i).gradient
          = bumpGrad g l (getN g i).gradient ++ t := bumpGrad_append t (by omega) _
      rw [e1]
      have e2 : getN (bumpGrad g l (getN g i).gradient ++ t) i
          = getN (bumpGrad g l (getN g i).gradient) i :=
        getN_append t (by rw [length_bumpGrad]; omega)
      rw [e2]
      have e3 : bumpGrad (bumpGrad g l (getN g i).gradient ++ t) r
            (getN (bumpGrad g l (getN g i).gradient) i).gradient
          = bumpGrad (bumpGrad g l (getN g i).gradient) r
              (getN (bumpGrad g l (getN g i).gradient) i).gradient ++ t :=
        bumpGrad_append t (by rw [length_bumpGrad]; omega) _
      rw [e3, ih _ t l (wf_bump2 hw l r _ _) (by rw [length_bumpGrad, length_bumpGrad]; omega),
        BpOut.map_bind, ← BpOut.bind_map]
      refine BpOut.bind_congr fun w hwd => ?_
      have hsw := backpropagate_sameShape ops fuel _ l w hwd
      exact ih w t r (wf_of_sameShape hsw (wf_bump2 hw l r _ _))
        (by rw [hsw.1, length_bumpGrad, length_bumpGrad]; omega)
    | sub l r =>
      rw [hop] at hops
      have hl : l < i := hops l (by simp [Operation.operands])
      have hr : r < i := hops r (by simp [Operation.operands])
      dsimp only
      have e1 : bumpGrad (g ++ t) l (getN g i).gradient
          = bumpGrad g l (getN g i).gradient ++ t := bumpGrad_append t (by omega) _
      rw [e1]
      have e2 : getN (bumpGrad g l (getN g i).gradient ++ t) i
          = getN (bumpGrad g l (getN g i).gradient) i :=
        getN_append t (by rw [length_bumpGrad]; omega)
      rw [e2]
      have e3 : bumpGrad (bumpGrad g l (getN g i).gradient ++ t) r
            (-(getN (bumpGrad g l (getN g i).gradient) i).gradient)
          = bumpGrad (bumpGrad g l (getN g i).gradient) r
              (-(getN (bumpGrad g l (getN g i).gradient) i).gradient) ++ t :=
        bumpGrad_append t (by rw [length_bumpGrad]; omega) _
      rw [e3, ih _ t l (wf_bump2 hw l r _ _) (by rw [length_bumpGrad, length_bumpGrad]; omega),
        BpOut.map_bind, ← BpOut.bind_map]
      refine BpOut.bind_congr fun w hwd => ?_
      have hsw := backpropagate_sameShape ops fuel _ l w hwd
      exact ih w t r (wf_of_sameShape hsw (wf_bump2 hw l r _ _))
        (by rw [hsw.1, length_bumpGrad, length_bumpGrad]; omega)
    | multiply l r =>
      rw [hop] at hops
      have hl : l < i := hops l (by simp [Operation.operands])
      have hr : r < i := hops r (by simp [Operation.operands])
      dsimp only
      by_cases hlr : l = r
      · rw [if_pos hlr, if_pos hlr]
        rfl
      · rw [if_neg hlr, if_neg hlr]
        have e0 : getN (g ++ t) r = getN g r := getN_append t (by omega)
        rw [e0]
        have e1 : bumpGrad (g ++ t) l ((getN g r).value * (getN g i).gradient)
            = bumpGrad g l ((getN g r).value * (getN g i).gradient) ++ t :=
          bumpGrad_append t (by omega) _
        rw [e1]
        have e2 : getN (bumpGrad g l ((getN g r).value * (getN g i).gradient) ++ t) l
            = getN (bumpGrad g l ((getN g r).value * (getN g i).gradient)) l :=
          getN_append t (by rw [length_bumpGrad]; omega)
        rw [e2]
        have e2b : getN (bumpGrad g l ((getN g r).value * (getN g i).gradient) ++ t) i
            = getN (bumpGrad g l ((getN g r).value * (getN g i).gradient)) i :=
          getN_append t (by rw [length_bumpGrad]; omega)
        rw [e2b]
        have e3 : bumpGrad (bumpGrad g l ((getN g r).value * (getN g i).gradient) ++ t) r
              ((getN (bumpGrad g l ((getN g r).value * (getN g i).gradient)) l).value *
                (getN (bumpGrad g l ((getN g r).value * (getN g i).gradient)) i).gradient)
            = bumpGrad (bumpGrad g l ((getN g r).value * (getN g i).gradient)) r
                ((getN (bumpGrad g l ((getN g r).value * (getN g i).gradient)) l).value *
                  (getN (bumpGrad g l ((getN g r).value * (getN g i).gradient)) i).gradient) ++ t :=
          bumpGrad_append t (by rw [length_bumpGrad]; omega) _
        rw [e3, ih _ t l (wf_bump2 hw l r _ _) (by rw [length_bumpGrad, length_bumpGrad]; omega),
          BpOut.map_bind, ← BpOut.bind_map]
        refine BpOut.bind_congr fun w hwd => ?_
        have hsw := backpropagate_sameShape ops fuel _ l w hwd
        exact ih w t r (wf_of_sameShape hsw (wf_bump2 hw l r _ _))
          (by rw [hsw.1, length_bumpGrad, length_bumpGrad]; omega)
    | pow a e =>
      rw [hop] at hops
      have hla : a < i := hops a (by simp [Operation.operands])
      dsimp only
      have e0 : getN (g ++ t) a = getN g a := getN_append t (by omega)
      rw [e0]
      have e1 : bumpGrad (g ++ t) a ((e * ops.powf (getN g a).value (e - 1)) * (getN g i).gradient)
          = bumpGrad g a ((e * ops.powf (getN g a).value (e - 1)) * (getN g i).gradient) ++ t :=
        bumpGrad_append t (by omega) _
      rw [e1]
      exact ih _ t a (wf_bump1 hw a _) (by rw [length_bumpGrad]; omega)
    | tanh a =>
      rw [hop] at hops
      have hla : a < i := hops a (by simp [Operation.operands])
      dsimp only
      have e1 : bumpGrad (g ++ t) a ((1 - ops.powf (getN g i).value 2) * (getN g i).gradient)
          = bumpGrad g a ((1 - ops.powf (getN g i).value 2) * (getN g i).gradient) ++ t :=
        bumpGrad_append t (by omega) _
      rw [e1]
      exact ih _ t a (wf_bump1 hw a _) (by rw [length_bumpGrad]; omega)

/-- An external gradient bump at a node the traversal cannot reach
commutes with the whole traversal. -/
theorem backprop_bump_comm (ops : FOps F) :
    ∀ (fuel : Nat) (g : Graph F) (i b : Nat) (c : F), ¬ Reaches g i b →
      ValueInner.backpropagate ops fuel (bumpGrad g b c) i =
        (ValueInner.backpropagate ops fuel g i).map (fun w => bumpGrad w b c) := by
  intro fuel
  induction fuel with
  | zero => intro g i b c _; rfl
  | succ fuel ih =>
    intro g i b c hnr
    have hib : b ≠ i := by rintro rfl; exact hnr (Reaches.refl b)
    have hopseq : (getN (bumpGrad g b c) i).operation = (getN g i).operation :=
      ((sameShape_bumpGrad g b c).2 i).2.2
    rw [ValueInner.backpropagate, ValueInner.backpropagate, hopseq]
    cases hop : (getN g i).operation with
    | constant => rfl
    | add l r =>
      have hmem : ∀ o ∈ (getN g i).operation.operands, o ≠ b ∧ ¬ Reaches g o b := by
        intro o ho
        constructor
        · rintro rfl; exact hnr (.step ho (.refl _))
        · intro hob; exact hnr (.step ho hob)
      rw [hop] at hmem
      obtain ⟨hlb, hlr⟩ := hmem l (by simp [Operation.operands])
      obtain ⟨hrb, hrr⟩ := hmem r (by simp [Operation.operands])
      dsimp only
      rw [grad_bumpGrad_ne hib, bumpGrad_comm (Ne.symm hlb),
        grad_bumpGrad_ne hib, bumpGrad_comm (Ne.symm hrb),
        ih _ l b c (fun hx => hlr (reaches_of_sameShape
          (sameShape_trans (sameShape_bumpGrad _ _ _) (sameShape_bumpGrad _ _ _)) hx)),
        BpOut.map_bind, ← BpOut.bind_map]
      · refine BpOut.bind_congr fun w hwd => ?_
        have hsw := backpropagate_sameShape ops fuel _ l w hwd
        refine ih w r b c fun hx => hrr ?_
        exact reaches_of_sameShape
          (sameShape_trans (sameShape_trans (sameShape_bumpGrad _ _ _) (sameShape_bumpGrad _ _ _)) hsw) hx
    | sub l r =>
      have hmem : ∀ o ∈ (getN g i).operation.operands, o ≠ b ∧ ¬ Reaches g o b := by
        intro o ho
        constructor
        · rintro rfl; exact hnr (.step ho (.refl _))
        · intro hob; exact hnr (.step ho hob)
      rw [hop] at hmem
      obtain ⟨hlb, hlr⟩ := hmem l (by simp [Operation.operands])
      obtain ⟨hrb, hrr⟩ := hmem r (by simp [Operation.operands])
      dsimp only
      rw [grad_bumpGrad_ne hib, bumpGrad_comm (Ne.symm hlb),
        grad_bumpGrad_ne hib, bumpGrad_comm (Ne.symm hrb),
        ih _ l b c (fun hx => hlr (reaches_of_sameShape
          (sameShape_trans (sameShape_bumpGrad _ _ _) (sameShape_bumpGrad _ _ _)) hx)),
        BpOut.map_bind, ← BpOut.bind_map]
      · refine BpOut.bind_congr fun w hwd => ?_
        have hsw := backpropagate_sameShape ops fuel _ l w hwd
        refine ih w r b c fun hx => hrr ?_
        exact reaches_of_sameShape
          (sameShape_trans (sameShape_trans (sameShape_bumpGrad _ _ _) (sameShape_bumpGrad _ _ _)) hsw) hx
    | multiply l r =>
      have hmem : ∀ o ∈ (getN g i).operation.operands, o ≠ b ∧ ¬ Reaches g o b := by
        intro o ho
        constructor
        · rintro rfl; exact hnr (.step ho (.refl _))
        · intro hob; exact hnr (.step ho hob)
      rw [hop] at hmem
      obtain ⟨hlb, hlr⟩ := hmem l (by simp [Operation.operands])
      obtain ⟨hrb, hrr⟩ := hmem r (by simp [Operation.operands])
      dsimp only
      by_cases hlreq : l = r
      · rw [if_pos hlreq, if_pos hlreq]
        rfl
      · rw [if_neg hlreq, if_neg hlreq, value_bumpGrad, grad_bumpGrad_ne hib,
          bumpGrad_comm (Ne.symm hlb), value_bumpGrad, value_bumpGrad,
          grad_bumpGrad_ne hib, bumpGrad_comm (Ne.symm hrb),
          ih _ l b c (fun hx => hlr (reaches_of_sameShape
            (sameShape_trans (sameShape_bumpGrad _ _ _) (sameShape_bumpGrad _ _ _)) hx)),
          BpOut.map_bind, ← BpOut.bind_map]
        · refine BpOut.bind_congr fun w hwd => ?_
          have hsw := backpropagate_sameShape ops fuel _ l w hwd
          refine ih w r b c fun hx => hrr ?_
          exact reaches_of_sameShape
            (sameShape_trans (sameShape_trans (sameShape_bumpGrad _ _ _) (sameShape_bumpGrad _ _ _)) hsw) hx
    | pow a e =>
      have hab : a ≠ b ∧ ¬ Reaches g a b := by
        constructor
        · rintro rfl
          exact hnr (.step (by rw [hop]; simp [Operation.operands]) (.refl _))
        · intro hx
          exact hnr (.step (by rw [hop]; simp [Operation.operands]) hx)
      dsimp only
      rw [value_bumpGrad, grad_bumpGrad_ne hib, bumpGrad_comm (Ne.symm hab.1)]
      exact ih _ a b c fun hx => hab.2 (reaches_of_sameShape (sameShape_bumpGrad _ _ _) hx)
    | tanh a =>
      have hab : a ≠ b ∧ ¬ Reaches g a b := by
        constructor
        · rintro rfl
          exact hnr (.step (by rw [hop]; simp [Operation.operands]) (.refl _))
        · intro hx
          exact hnr (.step (by rw [hop]; simp [Operation.operands]) hx)
      dsimp only
      rw [value_bumpGrad, grad_bumpGrad_ne hib, bumpGrad_comm (Ne.symm hab.1)]
      exact ih _ a b c fun hx => hab.2 (reaches_of_sameShape (sameShape_bumpGrad _ _ _) hx)

/-- On a well-formed graph any fuel above the node's index gives the same
outcome: the source recursion's depth is bounded by the index. -/
theorem backprop_fuel_irrel (ops : FOps F) :
    ∀ (i : Nat) (g : Graph F), Wf g → ∀ f1 f2, i < f1 → i < f2 →
      ValueInner.backpropagate ops f1 g i = ValueInner.backpropagate ops f2 g i := by
  intro i
  induction i using Nat.strong_induction_on with
  | _ i ih =>
    intro g hw f1 f2 hf1 hf2
    obtain ⟨f1', rfl⟩ : ∃ k, f1 = k + 1 := ⟨f1 - 1, by omega⟩
    obtain ⟨f2', rfl⟩ : ∃ k, f2 = k + 1 := ⟨f2 - 1, by omega⟩
    rw [ValueInner.backpropagate, ValueInner.backpropagate]
    by_cases hil : i < g.length
    case neg =>
      rw [show (getN g i).operation = .constant by
        rw [getN, List.getD_eq_default _ _ (Nat.le_of_not_lt hil)]; rfl]
    case pos =>
    have hops := hw i hil
    cases hop : (getN g i).operation with
    | constant => rfl
    | add l r =>
      rw [hop] at hops
      have hl : l < i := hops l (by simp [Operation.operands])
      have hr : r < i := hops r (by simp [Operation.operands])
      dsimp only
      rw [ih l hl _ (wf_bump2 hw l r _ _) f1' f2' (by omega) (by omega)]
      refine BpOut.bind_congr fun w hwd => ?_
      have hsw := backpropagate_sameShape ops f2' _ l w hwd
      exact ih r hr w (wf_of_sameShape hsw (wf_bump2 hw l r _ _)) f1' f2' (by omega) (by omega)
    | sub l r =>
      rw [hop] at hops
      have hl : l < i := hops l (by simp [Operation.operands])
      have hr : r < i := hops r (by simp [Operation.operands])
      dsimp only
      rw [ih l hl _ (wf_bump2 hw l r _ _) f1' f2' (by omega) (by omega)]
      refine BpOut.bind_congr fun w hwd => ?_
      have hsw := backpropagate_sameShape ops f2' _ l w hwd
      exact ih r hr w (wf_of_sameShape hsw (wf_bump2 hw l r _ _)) f1' f2' (by omega) (by omega)
    | multiply l r =>
      rw [hop] at hops
      have hl : l < i := hops l (by simp [Operation.operands])
      have hr : r < i := hops r (by simp [Operation.operands])
      dsimp only
      by_cases hlr : l = r
      · rw [if_pos hlr, if_pos hlr]
      · rw [if_neg hlr, if_neg hlr,
          ih l hl _ (wf_bump2 hw l r _ _) f1' f2' (by omega) (by omega)]
        refine BpOut.bind_congr fun w hwd => ?_
        have hsw := backpropagate_sameShape ops f2' _ l w hwd
        exact ih r hr w (wf_of_sameShape hsw (wf_bump2 hw l r _ _)) f1' f2' (by omega) (by omega)
    | pow a e =>
      rw [hop] at hops
      have hla : a < i := hops a (by simp [Operation.operands])
      dsimp only
      exact ih a hla _ (wf_bump1 hw a _) f1' f2' (by omega) (by omega)
    | tanh a =>
      rw [hop] at hops
      have hla : a < i := hops a (by simp [Operation.operands])
      dsimp only
      exact ih a hla _ (wf_bump1 hw a _) f1' f2' (by omega) (by omega)

/-- A completed traversal never changes the gradient of a node its root
cannot reach along operand edges. -/
theorem backprop_untouched (ops : FOps F) :
    ∀ (fuel : Nat) (g : Graph F) (i : Nat) (g' : Graph F) (b : Nat),
      ValueInner.backpropagate ops fuel g i = .done g' → ¬ Reaches g i b →
      (getN g' b).gradient = (getN g b).gradient := by
  intro fuel
  induction fuel with
  | zero => intro g i g' b h; exact absurd h (by simp [ValueInner.backpropagate])
  | succ fuel ih =>
    intro g i g' b h hnr
    have hib : b ≠ i := by rintro rfl; exact hnr (Reaches.refl b)
    rw [ValueInner.backpropagate] at h
    cases hop : (getN g i).operation with
    | constant =>
      rw [hop] at h
      cases h
      rfl
    | add l r =>
      have hmem : ∀ o ∈ (getN g i).operation.operands, o ≠ b ∧ ¬ Reaches g o b := by
        intro o ho
        exact ⟨by rintro rfl; exact hnr (.step ho (.refl _)), fun hob => hnr (.step ho hob)⟩
      rw [hop] at hmem
      obtain ⟨hlb, hlr⟩ := hmem l (by simp [Operation.operands])
      obtain ⟨hrb, hrr⟩ := hmem r (by simp [Operation.operands])
      rw [hop] at h
      obtain ⟨gm, h1, h2⟩ := BpOut.bind_eq_done h
      have hsh : SameShape g (bumpGrad (bumpGrad g l (getN g i).gradient) r
          (getN (bumpGrad g l (getN g i).gradient) i).gradient) :=
        sameShape_trans (sameShape_bumpGrad _ _ _) (sameShape_bumpGrad _ _ _)
      have hsm := backpropagate_sameShape ops fuel _ l gm h1
      rw [ih _ _ _ _ h2 (fun hx =>
          hrr (reaches_of_sameShape (sameShape_trans hsh hsm) hx)),
        ih _ _ _ _ h1 (fun hx => hlr (reaches_of_sameShape hsh hx)),
        grad_bumpGrad_ne hrb, grad_bumpGrad_ne hlb]
    | sub l r =>
      have hmem : ∀ o ∈ (getN g i).operation.operands, o ≠ b ∧ ¬ Reaches g o b := by
        intro o ho
        exact ⟨by rintro rfl; exact hnr (.step ho (.refl _)), fun hob => hnr (.step ho hob)⟩
      rw [hop] at hmem
      obtain ⟨hlb, hlr⟩ := hmem l (by simp [Operation.operands])
      obtain ⟨hrb, hrr⟩ := hmem r (by simp [Operation.operands])
      rw [hop] at h
      obtain ⟨gm, h1, h2⟩ := BpOut.bind_eq_done h
      have hsh : SameShape g (bumpGrad (bumpGrad g l (getN g i).gradient) r
          (-(getN (bumpGrad g l (getN g i).gradient) i).gradient)) :=
        sameShape_trans (sameShape_bumpGrad _ _ _) (sameShape_bumpGrad _ _ _)
      have hsm := backpropagate_sameShape ops fuel _ l gm h1
      rw [ih _ _ _ _ h2 (fun hx =>
          hrr (reaches_of_sameShape (sameShape_trans hsh hsm) hx)),
        ih _ _ _ _ h1 (fun hx => hlr (reaches_of_sameShape hsh hx)),
        grad_bumpGrad_ne hrb, grad_bumpGrad_ne hlb]
    | multiply l r =>
      have hmem : ∀ o ∈ (getN g i).operation.operands, o ≠ b ∧ ¬ Reaches g o b := by
        intro o ho
        exact ⟨by rintro rfl; exact hnr (.step ho (.refl _)), fun hob => hnr (.step ho hob)⟩
      rw [hop] at hmem
      obtain ⟨hlb, hlr⟩ := hmem l (by simp [Operation.operands])
      obtain ⟨hrb, hrr⟩ := hmem r (by simp [Operation.operands])
      rw [hop] at h
      dsimp only at h
      by_cases hlreq : l = r
      · rw [if_pos hlreq] at h
        exact absurd h (by simp)
      · rw [if_neg hlreq] at h
        obtain ⟨gm, h1, h2⟩ := BpOut.bind_eq_done h
        have hsh : SameShape g (bumpGrad (bumpGrad g l ((getN g r).value * (getN g i).gradient)) r
            ((getN (bumpGrad g l ((getN g r).value * (getN g i).gradient)) l).value *
              (getN (bumpGrad g l ((getN g r).value * (getN g i).gradient)) i).gradient)) :=
          sameShape_trans (sameShape_bumpGrad _ _ _) (sameShape_bumpGrad _ _ _)
        have hsm := backpropagate_sameShape ops fuel _ l gm h1
        rw [ih _ _ _ _ h2 (fun hx =>
            hrr (reaches_of_sameShape (sameShape_trans hsh hsm) hx)),
          ih _ _ _ _ h1 (fun hx => hlr (reaches_of_sameShape hsh hx)),
          grad_bumpGrad_ne hrb, grad_bumpGrad_ne hlb]
    | pow a e =>
      have hab : a ≠ b ∧ ¬ Reaches g a b :=
        ⟨by rintro rfl
            exact hnr (.step (by rw [hop]; simp [Operation.operands]) (.refl _)),
         fun hx => hnr (.step (by rw [hop]; simp [Operation.operands]) hx)⟩
      rw [hop] at h
      rw [ih _ _ _ _ h (fun hx => hab.2 (reaches_of_sameShape (sameShape_bumpGrad _ _ _) hx)),
        grad_bumpGrad_ne hab.1]
    | tanh a =>
      have hab : a ≠ b ∧ ¬ Reaches g a b :=
        ⟨by rintro rfl
            exact hnr (.step (by rw [hop]; simp [Operation.operands]) (.refl _)),
         fun hx => hnr (.step (by rw [hop]; simp [Operation.operands]) hx)⟩
      rw [hop] at h
      rw [ih _ _ _ _ h (fun hx => hab.2 (reaches_of_sameShape (sameShape_bumpGrad _ _ _) hx)),
        grad_bumpGrad_ne hab.1]

theorem set_append_self (g : Graph F) (x y : ValueInner F) :
    (g ++ [x]).set g.length y = g ++ [y] := by
  have h := set_append_tail g [x] 0 y
  simpa using h

theorem bumpGrad_append_tail (g t : Graph F) (k : Nat) (δ : F) :
    bumpGrad (g ++ t) (g.length + k) δ = g ++ bumpGrad t k δ := by
  rw [bumpGrad, getN_append_add, set_append_tail, bumpGrad]

theorem BpOut.bind_done_map (o : BpOut F) (f : Graph F → Graph F) :
    o.bind (fun u => .done (f u)) = o.map f := by
  cases o <;> rfl

/-- Backpropagating `subtract(a, b)` is the core run with the seeded
subtraction cell carried along inertly. -/
theorem c9_run1_eq (ops : FOps F) (g : Graph F) (a b : Nat)
    (ha : a < g.length) (hb : b < g.length) (hwf : Wf g) (hnr : ¬ Reaches g a b) :
    Value.backpropagate ops (Value.sub g a b).1 (Value.sub g a b).2 =
      (c9Core ops g a b).map
        (· ++ [⟨(getN g a).value - (getN g b).value,
          "(" ++ (getN g a).label ++ " - " ++ (getN g b).label ++ ")", 1, .sub a b⟩]) := by
  rw [Value.sub, Value.backpropagate]
  dsimp only
  rw [getN_append_self, set_append_self]
  rw [ValueInner.backpropagate]
  rw [getN_append_self]
  dsimp only
  have e1 : bumpGrad
      (g ++ [⟨(getN g a).value - (getN g b).value,
        "(" ++ (getN g a).label ++ " - " ++ (getN g b).label ++ ")", 1, .sub a b⟩]) a
        (1 : F)
      = bumpGrad g a 1 ++ [⟨(getN g a).value - (getN g b).value,
        "(" ++ (getN g a).label ++ " - " ++ (getN g b).label ++ ")", 1, .sub a b⟩] :=
    bumpGrad_append _ ha _
  rw [e1]
  have e2 : getN (bumpGrad g a 1 ++ [⟨(getN g a).value - (getN g b).value,
        "(" ++ (getN g a).label ++ " - " ++ (getN g b).label ++ ")", 1, .sub a b⟩])
      g.length
      = (⟨(getN g a).value - (getN g b).value,
        "(" ++ (getN g a).label ++ " - " ++ (getN g b).label ++ ")", 1, .sub a b⟩ :
          ValueInner F) := by
    have h0 := getN_append_add (bumpGrad g a 1)
      [(⟨(getN g a).value - (getN g b).value,
        "(" ++ (getN g a).label ++ " - " ++ (getN g b).label ++ ")", 1, .sub a b⟩ :
          ValueInner F)] 0
    rw [length_bumpGrad, Nat.add_zero] at h0
    rw [h0]
    rfl
  rw [e2]
  dsimp only
  have e3 : bumpGrad (bumpGrad g a 1 ++ [⟨(getN g a).value - (getN g b).value,
        "(" ++ (getN g a).label ++ " - " ++ (getN g b).label ++ ")", 1, .sub a b⟩]) b
        (-(1 : F))
      = bumpGrad (bumpGrad g a 1) b (-1) ++ [⟨(getN g a).value - (getN g b).value,
        "(" ++ (getN g a).label ++ " - " ++ (getN g b).label ++ ")", 1, .sub a b⟩] :=
    bumpGrad_append _ (by rw [length_bumpGrad]; omega) _
  rw [e3]
  have hwfP2 : Wf (bumpGrad (bumpGrad g a 1) b (-1)) := wf_bump2 hwf a b 1 (-1)
  rw [backprop_append ops g.length _ _ a hwfP2 (by rw [length_bumpGrad, length_bumpGrad]; omega)]
  have hcomm : ValueInner.backpropagate ops g.length (bumpGrad (bumpGrad g a 1) b (-1)) a =
      (ValueInner.backpropagate ops g.length (bumpGrad g a 1) a).map
        (fun w => bumpGrad w b (-1)) :=
    backprop_bump_comm ops g.length (bumpGrad g a 1) a b (-1)
      (fun hx => hnr (reaches_of_sameShape (sameShape_bumpGrad _ _ _) hx))
  rw [hcomm, BpOut.map_bind, BpOut.map_bind, c9Core, ← BpOut.bind_map]
  refine BpOut.bind_congr fun w hwd => ?_
  have hsw := backpropagate_sameShape ops g.length _ a w hwd
  have hwfw : Wf (bumpGrad w b (-1)) :=
    wf_bump1 (wf_of_sameShape hsw (wf_bump1 hwf a 1)) b (-1)
  rw [backprop_append ops g.length _ _ b hwfw
    (by rw [length_bumpGrad, hsw.1, length_bumpGrad]; omega)]

set_option maxHeartbeats 1000000 in
theorem c9_run2_general (ops : FOps F) (g : Graph F) (a b : Nat) (K N A : ValueInner F)
    (ha : a < g.length) (hb : b < g.length) (hwf : Wf g)
    (hKop : K.operation = .constant)
    (hKval : K.value = -1)
    (hNop : N.operation = .multiply b g.length)
    (hNgrad : N.gradient = 0)
    (hAop : A.operation = .add a (g.length + 1)) :
    Value.backpropagate ops (g ++ [K, N, A]) (g.length + 2) =
      (c9Core ops g a b).map (· ++
        [⟨K.value, K.label, K.gradient + (getN g b).value * (N.gradient + 1), K.operation⟩,
         ⟨N.value, N.label, N.gradient + 1, N.operation⟩,
         ⟨A.value, A.label, 1, A.operation⟩]) := by
  rw [Value.backpropagate]
  dsimp only
  rw [getN_append_add g [K, N, A] 2]
  rw [set_append_tail g [K, N, A] 2]
  have eA : [K, N, A].set 2 (⟨(getN [K, N, A] 2).value, (getN [K, N, A] 2).label, 1,
      (getN [K, N, A] 2).operation⟩ : ValueInner F)
      = [K, N, (⟨A.value, A.label, 1, A.operation⟩ : ValueInner F)] := rfl
  rw [eA]
  rw [ValueInner.backpropagate]
  have eS : getN (g ++ [K, N, (⟨A.value, A.label, 1, A.operation⟩ : ValueInner F)])
      (g.length + 2) = (⟨A.value, A.label, 1, A.operation⟩ : ValueInner F) :=
    getN_append_add g _ 2
  rw [eS]
  rw [show (⟨A.value, A.label, 1, A.operation⟩ : ValueInner F).operation = A.operation from rfl,
    hAop]
  dsimp only
  have e1 : bumpGrad (g ++ [K, N,
        (⟨A.value, A.label, 1, Operation.add a (g.length + 1)⟩ : ValueInner F)]) a (1 : F)
      = bumpGrad g a 1 ++ [K, N,
        (⟨A.value, A.label, 1, Operation.add a (g.length + 1)⟩ : ValueInner F)] :=
    bumpGrad_append _ ha _
  rw [e1]
  have e2 : getN (bumpGrad g a 1 ++ [K, N,
        (⟨A.value, A.label, 1, Operation.add a (g.length + 1)⟩ : ValueInner F)])
      (g.length + 2) = (⟨A.value, A.label, 1, Operation.add a (g.length + 1)⟩ : ValueInner F) := by
    have h0 := getN_append_add (bumpGrad g a 1)
      [K, N, (⟨A.value, A.label, 1, Operation.add a (g.length + 1)⟩ : ValueInner F)] 2
    rw [length_bumpGrad] at h0
    rw [h0]
    rfl
  rw [e2]
  dsimp only
  have e3 : bumpGrad (bumpGrad g a 1 ++ [K, N,
        (⟨A.value, A.label, 1, Operation.add a (g.length + 1)⟩ : ValueInner F)])
        (g.length + 1) (1 : F)
      = bumpGrad g a 1 ++ bumpGrad [K, N,
        (⟨A.value, A.label, 1, Operation.add a (g.length + 1)⟩ : ValueInner F)] 1 1 := by
    have h0 := bumpGrad_append_tail (bumpGrad g a 1)
      [K, N, (⟨A.value, A.label, 1, Operation.add a (g.length + 1)⟩ : ValueInner F)] 1 (1 : F)
    rw [length_bumpGrad] at h0
    exact h0
  rw [e3]
  have e4 : bumpGrad [K, N,
        (⟨A.value, A.label, 1, Operation.add a (g.length + 1)⟩ : ValueInner F)] 1 (1 : F)
      = [K, (⟨N.value, N.label, N.gradient + 1, N.operation⟩ : ValueInner F),
         (⟨A.value, A.label, 1, Operation.add a (g.length + 1)⟩ : ValueInner F)] := rfl
  rw [e4]
  rw [backprop_append ops (g.length + 2) (bumpGrad g a 1)
    [(⟨K.value, K.label, K.gradient, K.operation⟩ : ValueInner F),
     (⟨N.value, N.label, N.gradient + 1, N.operation⟩ : ValueInner F),
     (⟨A.value, A.label, 1, Operation.add a (g.length + 1)⟩ : ValueInner F)] a
    (wf_bump1 hwf a 1) (by rw [length_bumpGrad]; exact ha)]
  rw [backprop_fuel_irrel ops a (bumpGrad g a 1) (wf_bump1 hwf a 1)
    (g.length + 2) g.length (by omega) ha]
  rw [BpOut.map_bind, c9Core, ← BpOut.bind_map]
  refine BpOut.bind_congr fun w hwd => ?_
  have hsw := backpropagate_sameShape ops g.length (bumpGrad g a 1) a w hwd
  have hlenw : w.length = g.length := by rw [hsw.1, length_bumpGrad]
  rw [show g.length + 2 = g.length + 1 + 1 from rfl, ValueInner.backpropagate]
  have eN : getN (w ++
        [(⟨K.value, K.label, K.gradient, K.operation⟩ : ValueInner F),
         (⟨N.value, N.label, N.gradient + 1, N.operation⟩ : ValueInner F),
         (⟨A.value, A.label, 1, Operation.add a (g.length + 1)⟩ : ValueInner F)])
      (g.length + 1) = (⟨N.value, N.label, N.gradient + 1, N.operation⟩ : ValueInner F) := by
    have h0 := getN_append_add w
      [(⟨K.value, K.label, K.gradient, K.operation⟩ : ValueInner F),
       (⟨N.value, N.label, N.gradient + 1, N.operation⟩ : ValueInner F),
       (⟨A.value, A.label, 1, Operation.add a (g.length + 1)⟩ : ValueInner F)] 1
    rw [hlenw] at h0
    rw [h0]
    rfl
  rw [eN]
  rw [show (⟨N.value, N.label, N.gradient + 1, N.operation⟩ : ValueInner F).operation
    = N.operation from rfl, hNop]
  dsimp only
  rw [if_neg (show ¬ b = g.length by omega)]
  have eK : getN (w ++
        [(⟨K.value, K.label, K.gradient, K.operation⟩ : ValueInner F),
         (⟨N.value, N.label, N.gradient + 1, Operation.multiply b g.length⟩ : ValueInner F),
         (⟨A.value, A.label, 1, Operation.add a (g.length + 1)⟩ : ValueInner F)])
      g.length = (⟨K.value, K.label, K.gradient, K.operation⟩ : ValueInner F) := by
    have h0 := getN_append_add w
      [(⟨K.value, K.label, K.gradient, K.operation⟩ : ValueInner F),
       (⟨N.value, N.label, N.gradient + 1, Operation.multiply b g.length⟩ : ValueInner F),
       (⟨A.value, A.label, 1, Operation.add a (g.length + 1)⟩ : ValueInner F)] 0
    rw [hlenw] at h0
    simp only [Nat.add_zero] at h0
    rw [h0]
    rfl
  rw [eK]
  rw [show (⟨K.value, K.label, K.gradient, K.operation⟩ : ValueInner F).value * (N.gradient + 1)
    = (-1 : F) by dsimp only; rw [hKval, hNgrad]; ring]
  have hb' : b < (w ++
      [(⟨K.value, K.label, K.gradient, K.operation⟩ : ValueInner F),
       (⟨N.value, N.label, N.gradient + 1, Operation.multiply b g.length⟩ : ValueInner F),
       (⟨A.value, A.label, 1, Operation.add a (g.length + 1)⟩ : ValueInner F)]).length := by
    rw [List.length_append, hlenw]; omega
  have e5 : bumpGrad (w ++
        [(⟨K.value, K.label, K.gradient, K.operation⟩ : ValueInner F),
         (⟨N.value, N.label, N.gradient + 1, Operation.multiply b g.length⟩ : ValueInner F),
         (⟨A.value, A.label, 1, Operation.add a (g.length + 1)⟩ : ValueInner F)]) b (-1 : F)
      = bumpGrad w b (-1) ++
        [(⟨K.value, K.label, K.gradient, K.operation⟩ : ValueInner F),
         (⟨N.value, N.label, N.gradient + 1, Operation.multiply b g.length⟩ : ValueInner F),
         (⟨A.value, A.label, 1, Operation.add a (g.length + 1)⟩ : ValueInner F)] :=
    bumpGrad_append _ (by omega) _
  rw [e5]
  have eV : (getN (bumpGrad w b (-1) ++ [(⟨K.value, K.label, K.gradient, K.operation⟩ : ValueInner F),
         (⟨N.value, N.label, N.gradient + 1, Operation.multiply b g.length⟩ : ValueInner F),
         (⟨A.value, A.label, 1, Operation.add a (g.length + 1)⟩ : ValueInner F)]) b).value = (getN g b).value := by
    rw [getN_append _ (by rw [length_bumpGrad]; omega), value_bumpGrad, (hsw.2 b).1,
      value_bumpGrad]
  rw [eV]
  have eG2 : (getN (bumpGrad w b (-1) ++ [(⟨K.value, K.label, K.gradient, K.operation⟩ : ValueInner F),
         (⟨N.value, N.label, N.gradient + 1, Operation.multiply b g.length⟩ : ValueInner F),
         (⟨A.value, A.label, 1, Operation.add a (g.length + 1)⟩ : ValueInner F)]) (g.length + 1)).gradient
      = N.gradient + 1 := by
    have h0 := getN_append_add (bumpGrad w b (-1)) [(⟨K.value, K.label, K.gradient, K.operation⟩ : ValueInner F),
         (⟨N.value, N.label, N.gradient + 1, Operation.multiply b g.length⟩ : ValueInner F),
         (⟨A.value, A.label, 1, Operation.add a (g.length + 1)⟩ : ValueInner F)] 1
    rw [length_bumpGrad, hlenw] at h0
    rw [h0]
    rfl
  rw [eG2]
  have e6 : bumpGrad (bumpGrad w b (-1) ++ [(⟨K.value, K.label, K.gradient, K.operation⟩ : ValueInner F),
         (⟨N.value, N.label, N.gradient + 1, Operation.multiply b g.length⟩ : ValueInner F),
         (⟨A.value, A.label, 1, Operation.add a (g.length + 1)⟩ : ValueInner F)]) g.length
        ((getN g b).value * (N.gradient + 1))
      = bumpGrad w b (-1) ++ [(⟨K.value, K.label, K.gradient + (getN g b).value * (N.gradient + 1), K.operation⟩ : ValueInner F),
         (⟨N.value, N.label, N.gradient + 1, Operation.multiply b g.length⟩ : ValueInner F),
         (⟨A.value, A.label, 1, Operation.add a (g.length + 1)⟩ : ValueInner F)] := by
    have h0 := bumpGrad_append_tail (bumpGrad w b (-1)) [(⟨K.value, K.label, K.gradient, K.operation⟩ : ValueInner F),
         (⟨N.value, N.label, N.gradient + 1, Operation.multiply b g.length⟩ : ValueInner F),
         (⟨A.value, A.label, 1, Operation.add a (g.length + 1)⟩ : ValueInner F)] 0
      ((getN g b).value * (N.gradient + 1))
    rw [length_bumpGrad, hlenw] at h0
    simp only [Nat.add_zero] at h0
    rw [h0]
    rfl
  rw [e6]
  have hwfw : Wf (bumpGrad w b (-1)) :=
    wf_bump1 (wf_of_sameShape hsw (wf_bump1 hwf a 1)) b (-1)
  rw [backprop_append ops (g.length + 1) (bumpGrad w b (-1)) [(⟨K.value, K.label, K.gradient + (getN g b).value * (N.gradient + 1), K.operation⟩ : ValueInner F),
         (⟨N.value, N.label, N.gradient + 1, Operation.multiply b g.length⟩ : ValueInner F),
         (⟨A.value, A.label, 1, Operation.add a (g.length + 1)⟩ : ValueInner F)] b hwfw
    (by rw [length_bumpGrad, hlenw]; exact hb)]
  rw [backprop_fuel_irrel ops b (bumpGrad w b (-1)) hwfw (g.length + 1) g.length
    (by omega) hb]
  rw [BpOut.map_bind]
  refine Eq.trans (BpOut.bind_congr fun u hu => ?_) (BpOut.bind_done_map _ _)
  have hlenu : u.length = g.length := by
    rw [(backpropagate_sameShape ops g.length _ b u hu).1, length_bumpGrad, hlenw]
  rw [ValueInner.backpropagate]
  have eKu : getN (u ++ [(⟨K.value, K.label, K.gradient + (getN g b).value * (N.gradient + 1), K.operation⟩ : ValueInner F),
         (⟨N.value, N.label, N.gradient + 1, Operation.multiply b g.length⟩ : ValueInner F),
         (⟨A.value, A.label, 1, Operation.add a (g.length + 1)⟩ : ValueInner F)]) g.length
      = (⟨K.value, K.label, K.gradient + (getN g b).value * (N.gradient + 1),
          K.operation⟩ : ValueInner F) := by
    have h0 := getN_append_add u [(⟨K.value, K.label, K.gradient + (getN g b).value * (N.gradient + 1), K.operation⟩ : ValueInner F),
         (⟨N.value, N.label, N.gradient + 1, Operation.multiply b g.length⟩ : ValueInner F),
         (⟨A.value, A.label, 1, Operation.add a (g.length + 1)⟩ : ValueInner F)] 0
    rw [hlenu] at h0
    simp only [Nat.add_zero] at h0
    rw [h0]
    rfl
  rw [eKu]
  rw [show (⟨K.value, K.label, K.gradient + (getN g b).value * (N.gradient + 1),
      K.operation⟩ : ValueInner F).operation = K.operation from rfl, hKop]

/-- C1: the backpropagation traversal rooted at a node is claimed to first
compute a topological order, deduplicated by identity, and process each
reachable node exactly once in a single reverse-topological pass, never
recursing into an operand immediately after pushing one parent's
contribution.  The code does the opposite: it recurses into each operand
immediately, so on the diamond `c = add(m, m)` with `m = multiply(a, z)`
the shared node `m` is processed twice and `a`'s gradient is double-counted
to 12, where the claimed single-pass reverse-topological traversal
(modelled from the spec as `backpropagateTopo`) yields the derivative 6. -/
theorem c1_recursive_traversal_double_counts :
    (Value.backpropagate intOps c1Graph 3).gradAt 0 = some 12 ∧
    Value.gradient (backpropagateTopo intOps c1Graph 3) 0 = 6 ∧
    (12 : ℤ) ≠ 6 := by decide

/-- C2: for `x = constant(2, "x")` and `p = multiply(x, x)`, the claim says
`backpropagate(p)` completes with `gradient(x) = 4`.  The code instead
panics: the `Multiply` arm's statement
`lhs.borrow_mut().gradient += rhs.borrow().value * self.gradient` holds a
shared and a mutable borrow of the same `RefCell` at once when both
operands are the same node, a `BorrowMutError`. -/
theorem c2_self_sharing_multiply_panics :
    Value.backpropagate intOps c2Graph 1 = .panic ∧
    ∀ g : Graph ℤ, Value.backpropagate intOps c2Graph 1 ≠ .done g := by
  refine ⟨by decide, fun g h => ?_⟩
  rw [show Value.backpropagate intOps c2Graph 1 = .panic from by decide] at h
  exact BpOut.noConfusion h

/-- C3: the claim says every engine operation, `backpropagate` included, is
total over its typed inputs.  `backpropagate` is not: on the
already-constructed nodes `x = constant(3, "x")`, `p = multiply(x, x)` it
panics with a `RefCell` double-borrow in the `Multiply` arm instead of
completing. -/
theorem c3_backpropagate_not_total :
    Value.backpropagate intOps c3Graph 1 = .panic := by decide

/-- C4: on the graph `a = constant(-2)`, `b = constant(3)`,
`d = multiply(a,b)`, `e = add(a,b)`, `f = multiply(d,e)` with fresh zero
gradients, `backpropagate(f)` completes and leaves `gradient(f) = 1`,
`gradient(e) = -6`, `gradient(d) = 1`, `gradient(a) = -3`,
`gradient(b) = -8`. -/
theorem c4_sum_of_products_concrete :
    (Value.backpropagate intOps c4Graph 4).gradAt 4 = some 1 ∧
    (Value.backpropagate intOps c4Graph 4).gradAt 3 = some (-6) ∧
    (Value.backpropagate intOps c4Graph 4).gradAt 2 = some 1 ∧
    (Value.backpropagate intOps c4Graph 4).gradAt 0 = some (-3) ∧
    (Value.backpropagate intOps c4Graph 4).gradAt 1 = some (-8) := by decide

/-- C6: the constructors satisfy `value(add(a,b)) = value(a) + value(b)`,
`value(multiply(a,b)) = value(a) * value(b)`,
`value(subtract(a,b)) = value(a) - value(b)`,
`value(hyperbolicTangent(a)) = tanh(value(a))`, and `constant(v, s)` yields
a node with `value = v`, `gradient = 0` and `label = s`. -/
theorem c6_constructor_value_equations (ops : FOps F) (g : Graph F) (a b : Nat)
    (v : F) (s : String) :
    Value.value (Value.add g a b).1 (Value.add g a b).2 = Value.value g a + Value.value g b ∧
    Value.value (Value.mul g a b).1 (Value.mul g a b).2 = Value.value g a * Value.value g b ∧
    Value.value (Value.sub g a b).1 (Value.sub g a b).2 = Value.value g a - Value.value g b ∧
    Value.value (Value.tanh ops g a).1 (Value.tanh ops g a).2 = ops.tanh (Value.value g a) ∧
    Value.value (Value.new g v s).1 (Value.new g v s).2 = v ∧
    Value.gradient (Value.new g v s).1 (Value.new g v s).2 = 0 ∧
    Value.label (Value.new g v s).1 (Value.new g v s).2 = s := by
  refine ⟨?_, ?_, ?_, ?_, ?_, ?_, ?_⟩ <;>
    simp [Value.add, Value.mul, Value.sub, Value.tanh, Value.new, Value.value, Value.gradient,
      Value.label, getN_append_self]

/-- C7: every arithmetic/activation construction returns a new node with
gradient 0 and leaves every existing cell — value, label, gradient and
operation alike — completely unchanged. -/
theorem c7_constructions_leave_operands_unchanged (ops : FOps F) (g : Graph F) (a b : Nat)
    (e : F) (j : Nat) (hj : j < g.length) :
    getN (Value.add g a b).1 j = getN g j ∧
    getN (Value.sub g a b).1 j = getN g j ∧
    getN (Value.mul g a b).1 j = getN g j ∧
    getN (Value.pow ops g a e).1 j = getN g j ∧
    getN (Value.neg g a).1 j = getN g j ∧
    getN (Value.tanh ops g a).1 j = getN g j ∧
    Value.gradient (Value.add g a b).1 (Value.add g a b).2 = 0 ∧
    Value.gradient (Value.sub g a b).1 (Value.sub g a b).2 = 0 ∧
    Value.gradient (Value.mul g a b).1 (Value.mul g a b).2 = 0 ∧
    Value.gradient (Value.pow ops g a e).1 (Value.pow ops g a e).2 = 0 ∧
    Value.gradient (Value.neg g a).1 (Value.neg g a).2 = 0 ∧
    Value.gradient (Value.tanh ops g a).1 (Value.tanh ops g a).2 = 0 := by
  have hneg : getN (Value.neg g a).1 j = getN g j := by
    rw [Value.neg]
    dsimp only [Value.new, Value.mul]
    rw [getN_append (i := j) _ (by simpa using Nat.lt_succ_of_lt hj), getN_append _ hj]
  have hneggrad : Value.gradient (Value.neg g a).1 (Value.neg g a).2 = 0 := by
    rw [Value.neg]
    dsimp only [Value.new, Value.mul]
    rw [Value.gradient, getN_append_self (g ++ _) _]
  refine ⟨getN_append _ hj, getN_append _ hj, getN_append _ hj, getN_append _ hj, hneg,
    getN_append _ hj, ?_, ?_, ?_, ?_, hneggrad, ?_⟩ <;>
    simp [Value.add, Value.sub, Value.mul, Value.pow, Value.tanh, Value.gradient, getN_append_self]

/-- Witness for C7 at a concrete one-node integer graph. -/
theorem c7_witness :
    getN (Value.add [(⟨5, "c", 0, .constant⟩ : ValueInner ℤ)] 0 0).1 0 =
      getN [(⟨5, "c", 0, .constant⟩ : ValueInner ℤ)] 0 :=
  (c7_constructions_leave_operands_unchanged intOps [⟨5, "c", 0, .constant⟩] 0 0 2 0
    (by decide)).1

/-- C8: `nudge(rate)` replaces the node's value `v` with
`v - rate * gradient`, resets the gradient to 0, and leaves the label, the
operation, and every other cell untouched; and it is the only mutator of
`value` after construction — the constructions leave every existing cell
unchanged and a completed backpropagation changes only gradients
(`SameShape`). -/
theorem c8_nudge_semantics (ops : FOps F) (g : Graph F) (i : Nat) (rate : F)
    (a b : Nat) (e : F) (k j r : Nat) (g' : Graph F)
    (hi : i < g.length) (hk : k ≠ i) (hj : j < g.length)
    (hbp : Value.backpropagate ops g r = .done g') :
    Value.value (Value.nudge g i rate) i = Value.value g i - rate * Value.gradient g i ∧
    Value.gradient (Value.nudge g i rate) i = 0 ∧
    Value.label (Value.nudge g i rate) i = Value.label g i ∧
    (getN (Value.nudge g i rate) i).operation = (getN g i).operation ∧
    getN (Value.nudge g i rate) k = getN g k ∧
    (Value.nudge g i rate).length = g.length ∧
    SameShape g g' ∧
    getN (Value.add g a b).1 j = getN g j ∧
    getN (Value.sub g a b).1 j = getN g j ∧
    getN (Value.mul g a b).1 j = getN g j ∧
    getN (Value.pow ops g a e).1 j = getN g j ∧
    getN (Value.neg g a).1 j = getN g j ∧
    getN (Value.tanh ops g a).1 j = getN g j ∧
    getN (Value.new g e "x").1 j = getN g j := by
  have hframe := c7_constructions_leave_operands_unchanged ops g a b e j hj
  refine ⟨?_, ?_, ?_, ?_, getN_set_ne (Ne.symm hk) _, List.length_set g i _,
    value_backpropagate_sameShape ops g r g' hbp,
    hframe.1, hframe.2.1, hframe.2.2.1, hframe.2.2.2.1, hframe.2.2.2.2.1,
    hframe.2.2.2.2.2.1, getN_append _ hj⟩ <;>
    simp [Value.nudge, Value.value, Value.gradient, Value.label, getN_set_self hi]

/-- On matching input arity a neuron call always succeeds. -/
theorem neuron_call_ok (ops : FOps F) (n : Neuron) (g : Graph F) (x : List Nat)
    (h : x.length = n.weights.length) :
    ∃ g' v, Neuron.call ops n g x = (g', .ok v) := by
  simp only [Neuron.call, if_neg (show ¬x.length ≠ n.weights.length by simp [h])]
  exact ⟨_, _, rfl⟩

/-- With every neuron at the input arity, the collect loop succeeds and
yields one output per neuron. -/
theorem Layer.callNeurons_ok (ops : FOps F) (x : List Nat) :
    ∀ (ns : List Neuron) (g : Graph F), (∀ n ∈ ns, n.weights.length = x.length) →
      ∃ g' vs, Layer.callNeurons ops x ns g = (g', .ok vs) ∧ vs.length = ns.length := by
  intro ns
  induction ns with
  | nil => intro g _; exact ⟨g, [], rfl, rfl⟩
  | cons n rest ih =>
    intro g hns
    obtain ⟨g1, v, hv⟩ := neuron_call_ok ops n g x (hns n (by simp)).symm
    obtain ⟨g2, vs, hvs, hlen⟩ := ih g1 (fun n' hn' => hns n' (by simp [hn']))
    refine ⟨g2, v :: vs, ?_, by simpa using hlen⟩
    rw [Layer.callNeurons, hv]
    dsimp only
    rw [hvs]

/-- A well-formed layer call on a matching input vector succeeds. -/
theorem layer_call_ok (ops : FOps F) (l : Layer) (g : Graph F) (x : List Nat)
    (hwf : Layer.wf l) (h : x.length = l.inputs) :
    ∃ g' vs, Layer.call ops l g x = (g', .ok vs) ∧ vs.length = l.neurons.length := by
  obtain ⟨g', vs, hcall, hlen⟩ :=
    Layer.callNeurons_ok ops x l.neurons g (fun n hn => (hwf n hn).trans h.symm)
  exact ⟨g', vs, by rw [Layer.call, if_neg (by simp [h]), hcall], hlen⟩

/-- Chained layers thread a matching-arity vector through without error. -/
theorem Mlp.tryFold_ok (ops : FOps F) :
    ∀ (ls : List Layer) (g : Graph F) (acc : List Nat) (k : Nat),
      Mlp.chain k ls → acc.length = k →
      ∃ g' vs, Mlp.tryFold ops ls g acc = (g', .ok vs) := by
  intro ls
  induction ls with
  | nil => intro g acc k _ _; exact ⟨g, acc, rfl⟩
  | cons l rest ih =>
    intro g acc k hc hlen
    obtain ⟨hin, hwf, hrest⟩ := hc
    obtain ⟨g1, vs, hcall, hvs⟩ := layer_call_ok ops l g acc hwf (hlen.trans hin.symm)
    obtain ⟨g', vs', hfold⟩ := ih g1 vs l.neurons.length hrest hvs
    refine ⟨g', vs', ?_⟩
    rw [Mlp.tryFold, hcall]
    dsimp only
    exact hfold

/-- C5: `Neuron` evaluate, `Layer` evaluate and `Mlp` predict return a
`DimensionMismatch(expected, actual)` error exactly when the input count
differs from the expected arity (for layers and networks as their
constructors build them), and a failing call returns before constructing
any node, leaving the graph unchanged. -/
theorem c5_dimension_mismatch_iff (ops : FOps F) (n : Neuron) (l : Layer) (m : Mlp)
    (g : Graph F) (x : List Nat) (e : Error)
    (hl : Layer.wf l) (hm : Mlp.wf m) :
    ((Neuron.call ops n g x).2 = .error e ↔
      x.length ≠ n.weights.length ∧ e = .DimensionMismatch n.weights.length x.length) ∧
    (x.length ≠ n.weights.length → (Neuron.call ops n g x).1 = g) ∧
    ((Layer.call ops l g x).2 = .error e ↔
      x.length ≠ l.inputs ∧ e = .DimensionMismatch l.inputs x.length) ∧
    (x.length ≠ l.inputs → (Layer.call ops l g x).1 = g) ∧
    (∃ p, Mlp.predict ops m g x = some p ∧
      (p.2 = .error e ↔ x.length ≠ m.inputs ∧ e = .DimensionMismatch m.inputs x.length) ∧
      (x.length ≠ m.inputs → p.1 = g)) := by
  refine ⟨?_, ?_, ?_, ?_, ?_⟩
  · by_cases hx : x.length ≠ n.weights.length
    · rw [Neuron.call, if_pos hx]
      simp [hx, eq_comm]
    · obtain ⟨g', v, hok⟩ := neuron_call_ok ops n g x (not_ne_iff.mp hx)
      rw [hok]
      simp [hx]
  · intro hx
    rw [Neuron.call, if_pos hx]
  · by_cases hx : x.length ≠ l.inputs
    · rw [Layer.call, if_pos hx]
      simp [hx, eq_comm]
    · obtain ⟨g', vs, hok, _⟩ := layer_call_ok ops l g x hl (not_ne_iff.mp hx)
      rw [hok]
      simp [hx]
  · intro hx
    rw [Layer.call, if_pos hx]
  · by_cases hx : x.length ≠ m.inputs
    · exact ⟨(g, .error (.DimensionMismatch m.inputs x.length)),
        by rw [Mlp.predict, if_pos hx], by simp [hx, eq_comm], fun _ => rfl⟩
    · cases hml : m.layers with
      | nil => exact absurd hml hm.1
      | cons l0 rest =>
        have hchain := hm.2
        rw [hml] at hchain
        obtain ⟨hin, hwf0, hrest⟩ := hchain
        obtain ⟨g1, vs, hcall, hvs⟩ :=
          layer_call_ok ops l0 g x hwf0 ((not_ne_iff.mp hx).trans hin.symm)
        obtain ⟨g', vs', hfold⟩ := Mlp.tryFold_ok ops rest g1 vs l0.neurons.length hrest hvs
        refine ⟨(g', .ok vs'), ?_, by simp [hx], fun hc => absurd hc (by simpa using hx)⟩
        rw [Mlp.predict, if_neg hx, hml]
        dsimp only
        rw [hcall]
        dsimp only
        rw [hfold]

/-- Witness for C5: a one-weight neuron called on a one-node input vector
never reports a mismatch. -/
theorem c5_witness :
    (Neuron.call intOps ⟨[0], 1⟩ c5WitnessGraph [0]).2 =
        .error (.DimensionMismatch 1 1) ↔
      ([0] : List Nat).length ≠ ([0] : List Nat).length ∧
        (Error.DimensionMismatch 1 1 : Error) = .DimensionMismatch ([0] : List Nat).length ([0] : List Nat).length :=
  (c5_dimension_mismatch_iff intOps ⟨[0], 1⟩ ⟨1, [⟨[0], 1⟩]⟩ ⟨1, [⟨1, [⟨[0], 1⟩]⟩]⟩
    c5WitnessGraph [0] (.DimensionMismatch 1 1)
    (by simp [Layer.wf]) ⟨by simp, by simp [Mlp.chain, Layer.wf]⟩).1

/-- C10: a network constructed with an empty list of layer sizes has no
layers, and `predict` on it panics (indexes `layers[0]` out of bounds)
whenever the input length matches the declared arity; a call with matching
arity only returns (normally or with an error) on a network with at least
one layer. -/
theorem c10_empty_network_predict_panics (ops : FOps F) (inputs ctr : Nat)
    (supply : Nat → F) (g0 g : Graph F) (x : List Nat) (m : Mlp)
    (p : Graph F × Except Error (List Nat))
    (hx : x.length = inputs) (hxm : x.length = m.inputs)
    (hp : Mlp.predict ops m g x = some p) :
    (Mlp.new g0 inputs [] supply ctr).1.layers = [] ∧
    Mlp.predict ops (Mlp.new g0 inputs [] supply ctr).1 g x = none ∧
    m.layers ≠ [] := by
  refine ⟨rfl, ?_, ?_⟩
  · rw [Mlp.predict]
    rw [if_neg (by simpa [Mlp.new] using hx)]
    rfl
  · intro hml
    rw [Mlp.predict, if_neg (by simpa using hxm), hml] at hp
    exact Option.noConfusion hp

/-- Witness for C10: a 2-input network with no layers versus a 2-input
network with one (empty) layer, evaluated on a two-element input. -/
theorem c10_witness :
    (Mlp.new ([] : Graph ℤ) 2 [] (fun _ => 0) 0).1.layers = [] ∧
    Mlp.predict intOps (Mlp.new ([] : Graph ℤ) 2 [] (fun _ => 0) 0).1 [] [0, 1] = none ∧
    (⟨2, [⟨3, []⟩]⟩ : Mlp).layers ≠ [] :=
  c10_empty_network_predict_panics intOps 2 0 (fun _ => 0) [] [] [0, 1] ⟨2, [⟨3, []⟩]⟩
    ([], .error (.DimensionMismatch 3 2)) rfl rfl rfl

/-- Backpropagation rooted at the constant node 1 completes on the C8
witness graph, seeding its gradient with 1. -/
theorem c8WitnessGraphBp :
    Value.backpropagate intOps c8WitnessGraph 1 =
      .done [⟨2, "x", 0, .constant⟩, ⟨4, "y", 1, .constant⟩] := by decide

/-- Witness for C8: a two-cell integer graph, nudging node 0 at rate 2
after a completed backpropagation rooted at node 1. -/
theorem c8_witness :
    Value.value (Value.nudge c8WitnessGraph 0 2) 0 =
      Value.value c8WitnessGraph 0 - 2 * Value.gradient c8WitnessGraph 0 :=
  (c8_nudge_semantics intOps c8WitnessGraph 0 2 0 0 3 1 0 1
    [⟨2, "x", 0, .constant⟩, ⟨4, "y", 1, .constant⟩]
    (by decide) (by decide) (by decide) c8WitnessGraphBp).1

/-- C9 (amended): for nodes `a` and `b` of a well-formed graph with fresh
zero gradients, where `b` is not reachable from `a` along operand edges,
if both `backpropagate(subtract(a, b))` and
`backpropagate(add(a, negate(b)))` complete, the two runs give `a` the
same gradient, and `gradient(b)` in the first run is the negation of the
gradient of the negate node in the second run.  (Without the
reachability restriction the second equation fails — see the
counterexample.) -/
theorem c9_sub_vs_negadd_amended (ops : FOps F) (g : Graph F) (a b : Nat) (g1 g2 : Graph F)
    (ha : a < g.length) (hb : b < g.length) (hwf : Wf g)
    (hfresh : ∀ j, (getN g j).gradient = 0)
    (hnr : ¬ Reaches g a b)
    (h1 : Value.backpropagate ops (Value.sub g a b).1 (Value.sub g a b).2 = .done g1)
    (h2 : Value.backpropagate ops
        (Value.add (Value.neg g b).1 a (Value.neg g b).2).1
        (Value.add (Value.neg g b).1 a (Value.neg g b).2).2 = .done g2) :
    Value.gradient g1 a = Value.gradient g2 a ∧
    Value.gradient g1 b = -(Value.gradient g2 (Value.neg g b).2) := by
  have hab : a ≠ b := by rintro rfl; exact hnr (Reaches.refl a)
  obtain ⟨K0, hKeq, hKop, hKval⟩ :
      ∃ K0, Value.new g (-1 : F) "-1" = (g ++ [K0], g.length) ∧
        K0.operation = .constant ∧ K0.value = -1 := ⟨_, rfl, rfl, rfl⟩
  obtain ⟨N0, hNeq, hNop, hNgrad⟩ :
      ∃ N0, Value.mul (g ++ [K0]) b g.length = ((g ++ [K0]) ++ [N0], (g ++ [K0]).length) ∧
        N0.operation = .multiply b g.length ∧ N0.gradient = 0 := ⟨_, rfl, rfl, rfl⟩
  have hneg1 : (Value.neg g b).1 = (g ++ [K0]) ++ [N0] := by
    show (Value.mul (Value.new g (-1) "-1").1 b (Value.new g (-1) "-1").2).1 = _
    rw [hKeq]
    dsimp only
    rw [hNeq]
  have hneg2 : (Value.neg g b).2 = (g ++ [K0]).length := by
    show (Value.mul (Value.new g (-1) "-1").1 b (Value.new g (-1) "-1").2).2 = _
    rw [hKeq]
    dsimp only
    rw [hNeq]
  rw [hneg1, hneg2] at h2
  rw [hneg2]
  obtain ⟨A0, hAeq, hAop⟩ :
      ∃ A0, Value.add ((g ++ [K0]) ++ [N0]) a (g ++ [K0]).length =
          (((g ++ [K0]) ++ [N0]) ++ [A0], ((g ++ [K0]) ++ [N0]).length) ∧
        A0.operation = .add a ((g ++ [K0]).length) := ⟨_, rfl, rfl⟩
  rw [hAeq] at h2
  dsimp only at h2
  simp only [List.length_append, List.length_singleton] at h2 hAop ⊢
  rw [List.append_assoc, List.append_assoc, List.singleton_append, List.singleton_append] at h2
  rw [show g.length + 1 + 1 = g.length + 2 from rfl] at h2
  rw [c9_run2_general ops g a b K0 N0 A0 ha hb hwf hKop hKval hNop hNgrad hAop] at h2
  rw [c9_run1_eq ops g a b ha hb hwf hnr] at h1
  obtain ⟨w1, hcore1, hg1⟩ := BpOut.map_eq_done h1
  obtain ⟨w2, hcore2, hg2⟩ := BpOut.map_eq_done h2
  have hw12 : w1 = w2 := by simpa using hcore1.symm.trans hcore2
  subst hw12
  obtain ⟨s1, hg1'⟩ : ∃ s1, g1 = w1 ++ [s1] := ⟨_, hg1⟩
  obtain ⟨c1, c2, c3, hg2', hc2grad⟩ :
      ∃ c1 c2 c3, g2 = w1 ++ [c1, c2, c3] ∧ c2.gradient = N0.gradient + 1 :=
    ⟨_, _, _, hg2, rfl⟩
  rw [c9Core] at hcore1
  obtain ⟨wA, hA, hB⟩ := BpOut.bind_eq_done hcore1
  have hshA := backpropagate_sameShape ops g.length (bumpGrad g a 1) a wA hA
  have hlenwA : wA.length = g.length := by rw [hshA.1, length_bumpGrad]
  have hshB := backpropagate_sameShape ops g.length (bumpGrad wA b (-1)) b w1 hB
  have hlenw1 : w1.length = g.length := by rw [hshB.1, length_bumpGrad, hlenwA]
  have hgb0 : (getN wA b).gradient = 0 := by
    rw [backprop_untouched ops g.length (bumpGrad g a 1) a wA b hA
        (fun hx => hnr (reaches_of_sameShape (sameShape_bumpGrad g a 1) hx)),
      getN_bumpGrad_ne hab, hfresh b]
  have hgb1 : (getN w1 b).gradient = 0 + -1 := by
    rw [backprop_grad_ge ops g.length (bumpGrad wA b (-1)) b w1
        (wf_bump1 (wf_of_sameShape hshA (wf_bump1 hwf a 1)) b (-1)) hB b le_rfl,
      getN_bumpGrad_self (show b < wA.length by rw [hlenwA]; exact hb)]
    dsimp only
    rw [hgb0]
  constructor
  · rw [hg1', hg2', Value.gradient, Value.gradient,
      getN_append _ (show a < w1.length by rw [hlenw1]; exact ha),
      getN_append _ (show a < w1.length by rw [hlenw1]; exact ha)]
  · rw [hg1', hg2', Value.gradient, Value.gradient,
      getN_append _ (show b < w1.length by rw [hlenw1]; exact hb)]
    have ec2 : getN (w1 ++ [c1, c2, c3]) (g.length + 1) = c2 := by
      have h0 := getN_append_add w1 [c1, c2, c3] 1
      rw [hlenw1] at h0
      exact h0.trans rfl
    rw [ec2, hc2grad, hNgrad, hgb1]
    ring

/-- C9, original statement, refuted: with `v = constant(5)`,
`s = add(v, v)` (all gradients fresh), taking `a := s` and `b := v`,
`backpropagate(subtract(a, b))` completes with `gradient(b) = 1`, and
`backpropagate(add(a, negate(b)))` completes with the negate node's
gradient equal to 1; the claim demands `gradient(b) = -1`, but `1 ≠ -1`.
(`b` is reachable from `a` here, so `b` collects a contribution from the
traversal of `a` on top of the root's `-1`.) -/
theorem c9_counterexample :
    (Value.backpropagate intOps (Value.sub c9CexGraph 1 0).1
        (Value.sub c9CexGraph 1 0).2).gradAt 0 = some 1 ∧
    (Value.backpropagate intOps
        (Value.add (Value.neg c9CexGraph 0).1 1 (Value.neg c9CexGraph 0).2).1
        (Value.add (Value.neg c9CexGraph 0).1 1 (Value.neg c9CexGraph 0).2).2).gradAt
      (Value.neg c9CexGraph 0).2 = some 1 ∧
    ¬((1 : ℤ) = -(1 : ℤ)) := by decide

/-- Witness for C9 (amended) at two fresh constants `p = 5`, `q = 7`:
both runs complete (checked by evaluation) and the gradient relations
hold. -/
theorem c9_witness :
    Value.gradient ([⟨5, "p", 1, .constant⟩, ⟨7, "q", -1, .constant⟩,
        ⟨-2, "(p - q)", 1, .sub 0 1⟩] : Graph ℤ) 0 =
      Value.gradient ([⟨5, "p", 1, .constant⟩, ⟨7, "q", -1, .constant⟩,
        ⟨-1, "-1", 7, .constant⟩, ⟨-7, "(q * -1)", 1, .multiply 1 2⟩,
        ⟨-2, "(p + (q * -1))", 1, .add 0 3⟩] : Graph ℤ) 0 ∧
    Value.gradient ([⟨5, "p", 1, .constant⟩, ⟨7, "q", -1, .constant⟩,
        ⟨-2, "(p - q)", 1, .sub 0 1⟩] : Graph ℤ) 1 =
      -(Value.gradient ([⟨5, "p", 1, .constant⟩, ⟨7, "q", -1, .constant⟩,
        ⟨-1, "-1", 7, .constant⟩, ⟨-7, "(q * -1)", 1, .multiply 1 2⟩,
        ⟨-2, "(p + (q * -1))", 1, .add 0 3⟩] : Graph ℤ) (Value.neg c9WitnessG 1).2) :=
  c9_sub_vs_negadd_amended intOps c9WitnessG 0 1 _ _ (by decide) (by decide)
    (by intro i hi o ho
        rcases i with _ | _ | i
        · rw [show (getN c9WitnessG 0).operation = Operation.constant from rfl] at ho
          simp [Operation.operands] at ho
        · rw [show (getN c9WitnessG 1).operation = Operation.constant from rfl] at ho
          simp [Operation.operands] at ho
        · rw [show List.length c9WitnessG = 2 from rfl] at hi
          omega)
    (by intro j
        rcases j with _ | _ | j <;> rfl)
    (by intro h
        cases h with
        | step hm hr =>
          rw [show (getN c9WitnessG 0).operation = Operation.constant from rfl] at hm
          simp [Operation.operands] at hm)
    (by decide) (by decide)
